import Mathlib

/-!
Verification of the `lennysroundtable` transcript-retrieval system.

This file shallowly embeds the core of the repository:

* `src/roundtable/retriever.py` — `Retriever.rank_speakers` and its helpers
  (parent-child retrieval ranking of speakers);
* `src/roundtable/parser.py` — `parse_transcript` (marker detection with the
  three regular expressions, name validation, normalization, merging,
  host/guest classification) and `chunk_turn` (paragraph chunking).

Strings are modelled as `List Char` (`Str` below).  Python floats are
modelled as `ℚ`; `math.sqrt`, which the code applies to chunk counts, is
passed in as an explicit function parameter `sqrt : ℚ → ℚ` so that every
embedded definition stays computable.  Python's stable `list.sort` is
modelled with `List.insertionSort`, which is stable and sorts with the same
comparator discipline.  Python `dict`s (which iterate in insertion order)
are modelled as association lists that append new keys at the end.
-/

abbrev Str := List Char

/-! ## Retriever data model (`src/roundtable/retriever.py`) -/

/-- One child-collection hit as consumed by `rank_speakers`:
`metadata.get('parent_id')` (which may be absent — `none` — or the empty
string) and the reported `distance`. -/
structure ChildHit where
  parentId : Option Str
  distance : ℚ
deriving DecidableEq, Repr

/-- Parent-chunk metadata as read by `rank_speakers`
(`metadata.get('speaker', 'Unknown')`). -/
structure PMeta where
  speaker : Option Str
deriving DecidableEq, Repr

/-- One entry of the `parent_map` produced by `get_parent_chunks`:
the parent's document text and its metadata. -/
structure ParentRec where
  text : Str
  metadata : PMeta
deriving DecidableEq, Repr

/-- The `chunk_data` dictionary built per evidence parent in
`rank_speakers`. -/
structure ChunkData where
  id : Str
  text : Str
  metadata : PMeta
  similarity : ℚ
  num_child_matches : Nat
deriving DecidableEq, Repr

/-- `SpeakerContext` from `retriever.py`. -/
structure SpeakerContext where
  speaker : Str
  score : ℚ
  chunks : List ChunkData
deriving DecidableEq, Repr

/-- Python truthiness test `if not parent_id: continue` on
`metadata.get('parent_id')`: a hit participates only when the key is
present and the value is a nonempty string. -/
def hitParentId (h : ChildHit) : Option Str :=
  match h.parentId with
  | some (c :: cs) => some (c :: cs)
  | _ => none

/-- `d[k].append(x)` on a Python dict of lists, creating the entry (at the
end, in insertion order) when the key is new.  Both grouping dicts of
`rank_speakers` (`parent_scores` and `speaker_parents`) use this shape. -/
def apush {α : Type} : List (Str × List α) → Str → α → List (Str × List α)
  | [], k, x => [(k, [x])]
  | e :: rest, k, x =>
    if e.1 = k then (e.1, e.2 ++ [x]) :: rest else e :: apush rest k x

/-- A Python for-loop that conditionally derives a key/value from each
element and appends the value into a dict of lists. -/
def apushFold {β α : Type} (f : β → Option (Str × α)) (acc : List (Str × List α)) :
    List β → List (Str × List α)
  | [] => acc
  | e :: rest =>
    apushFold f (match f e with | none => acc | some kx => apush acc kx.1 kx.2) rest

/-- The key/value derived from one child hit in the first loop of
`rank_speakers`: the parent id and the similarity `1 - distance`
(hits without a parent id are skipped). -/
def hitKV (h : ChildHit) : Option (Str × ℚ) :=
  match hitParentId h with
  | none => none
  | some pid => some (pid, 1 - h.distance)

/-- The first loop of `rank_speakers`: group child hits by parent id,
recording `1 - distance` per hit, skipping hits without a parent id. -/
def parentScores (hits : List ChildHit) : List (Str × List ℚ) :=
  apushFold hitKV [] hits

/-- Python `max` over a nonempty list (defaulting to 0 on `[]`, which the
code never hits because every `parent_scores` list is created nonempty). -/
def listMaxD : List ℚ → ℚ
  | [] => 0
  | x :: xs => xs.foldl max x

/-- The key/value derived from one `parent_scores` entry in the second loop
of `rank_speakers`: unresolved parents are skipped, the speaker is read from
parent metadata (default `"Unknown"`), and the evidence record carries the
best child similarity and the child-match count. -/
def spKV (parents : Str → Option ParentRec) (e : Str × List ℚ) : Option (Str × ChunkData) :=
  match parents e.1 with
  | none => none
  | some pd =>
    some (pd.metadata.speaker.getD ("Unknown".data),
      { id := e.1, text := pd.text, metadata := pd.metadata,
        similarity := listMaxD e.2, num_child_matches := e.2.length })

/-- The second loop of `rank_speakers`: group the per-parent evidence
records by speaker. -/
def speakerParents (hits : List ChildHit) (parents : Str → Option ParentRec) :
    List (Str × List ChunkData) :=
  apushFold (spKV parents) [] (parentScores hits)

/-- `chunks.sort(key=lambda x: x['similarity'], reverse=True)` — a stable
descending sort by similarity. -/
def sortChunksDesc (l : List ChunkData) : List ChunkData :=
  List.insertionSort (fun a b => b.similarity ≤ a.similarity) l

/-- `speaker_scores.sort(key=lambda x: x.score, reverse=True)` — a stable
descending sort by score. -/
def sortCtxDesc (l : List SpeakerContext) : List SpeakerContext :=
  List.insertionSort (fun a b => b.score ≤ a.score) l

/-- Build one `SpeakerContext` exactly as both passes of `rank_speakers` do:
score is `sum(similarities) / sqrt(len(chunks))` and the chunk list is
sorted by descending similarity. -/
def mkCtx (sqrt : ℚ → ℚ) (speaker : Str) (chunks : List ChunkData) : SpeakerContext :=
  { speaker := speaker,
    score := (chunks.map (·.similarity)).sum / sqrt (chunks.length : ℚ),
    chunks := sortChunksDesc chunks }

/-- The primary scoring pass: speakers with fewer than `min_chunks` evidence
parents are skipped, the rest are scored in grouping (insertion) order. -/
def primaryPass (sqrt : ℚ → ℚ) (pool : List (Str × List ChunkData)) (min_chunks : Nat) :
    List SpeakerContext :=
  pool.filterMap (fun e => if e.2.length < min_chunks then none else some (mkCtx sqrt e.1 e.2))

/-- The backfill loop of `rank_speakers`: walk the full per-speaker grouping
in insertion order, skip speakers already present, stop once `top_k`
speakers are accumulated, otherwise append (ignoring `min_chunks`). -/
def backfill (sqrt : ℚ → ℚ) (top_k : Nat) :
    List (Str × List ChunkData) → List SpeakerContext → List SpeakerContext
  | [], acc => acc
  | e :: rest, acc =>
    if acc.any (fun sc => sc.speaker = e.1) then backfill sqrt top_k rest acc
    else if top_k ≤ acc.length then acc
    else backfill sqrt top_k rest (acc ++ [mkCtx sqrt e.1 e.2])

/-- `Retriever.rank_speakers`, parameterized by the child-search result list
and the parent-collection lookup (the two external vector-store reads). -/
def rank_speakers (sqrt : ℚ → ℚ) (hits : List ChildHit) (parents : Str → Option ParentRec)
    (top_k min_chunks : Nat) : List SpeakerContext :=
  if hits = [] then []
  else
    let pool := speakerParents hits parents
    let primary := sortCtxDesc (primaryPass sqrt pool min_chunks)
    let result :=
      if primary.length < top_k then sortCtxDesc (backfill sqrt top_k pool primary)
      else primary
    result.take top_k

/-! Spec-side recomputations used to state scoring claims independently of
the fold that implements them. -/

/-- All similarities contributed by child hits that resolve to parent `pid`,
in hit order — computed directly from the raw hit list. -/
def simsOf (hits : List ChildHit) (pid : Str) : List ℚ :=
  hits.filterMap (fun h => if hitParentId h = some pid then some (1 - h.distance) else none)

/-- The best (maximal) child similarity for parent `pid`. -/
def bestSim (hits : List ChildHit) (pid : Str) : ℚ :=
  listMaxD (simsOf hits pid)

/-! ## Association-list lemmas -/

/-- Lookup in an association list (first match). -/
def alookup {α : Type} (k : Str) : List (Str × α) → Option α
  | [] => none
  | e :: rest => if e.1 = k then some e.2 else alookup k rest


theorem alookup_apush {α : Type} (ps : List (Str × List α)) (k : Str) (x : α) (q : Str) :
    alookup q (apush ps k x) =
      if q = k then some (((alookup k ps).getD []) ++ [x]) else alookup q ps := by
  induction ps with
  | nil =>
    by_cases h : q = k
    · simp [apush, alookup, h]
    · have h2 : ¬ k = q := fun h' => h h'.symm
      simp [apush, alookup, h, h2]
  | cons e rest ih =>
    rcases e with ⟨p, v⟩
    by_cases he : p = k
    · subst he
      by_cases hq : q = p
      · subst hq
        simp [apush, alookup]
      · have h2 : ¬ p = q := fun h' => hq h'.symm
        simp [apush, alookup, hq, h2]
    · by_cases hq : p = q
      · subst hq
        have h2 : ¬ p = k := he
        simp [apush, alookup, he, h2]
      · simp [apush, alookup, he, hq, ih]

theorem apush_map_fst {α : Type} (ps : List (Str × List α)) (k : Str) (x : α) :
    (apush ps k x).map Prod.fst =
      if k ∈ ps.map Prod.fst then ps.map Prod.fst else ps.map Prod.fst ++ [k] := by
  induction ps with
  | nil => simp [apush]
  | cons e rest ih =>
    rcases e with ⟨p, v⟩
    by_cases he : p = k
    · subst he
      simp [apush]
    · have h2 : ¬ k = p := fun h' => he h'.symm
      simp only [apush, if_neg he, List.map_cons, ih]
      by_cases hm : k ∈ rest.map Prod.fst
      · rw [if_pos hm, if_pos (by simp [hm])]
      · rw [if_neg hm, if_neg (by simp [hm, h2])]
        simp

theorem apush_keys_nodup {α : Type} (ps : List (Str × List α)) (k : Str) (x : α)
    (h : (ps.map Prod.fst).Nodup) : ((apush ps k x).map Prod.fst).Nodup := by
  rw [apush_map_fst]
  by_cases hm : k ∈ ps.map Prod.fst
  · rw [if_pos hm]; exact h
  · rw [if_neg hm]
    exact h.append (List.nodup_singleton k)
      (fun a ha hb => hm ((List.mem_singleton.mp hb) ▸ ha))

/-- All values that a fold of `apush`es files under key `k`, in order. -/
def fvals {β α : Type} (f : β → Option (Str × α)) (k : Str) (l : List β) : List α :=
  l.filterMap (fun e =>
    match f e with
    | none => none
    | some kx => if kx.1 = k then some kx.2 else none)

theorem apushFold_alookup {β α : Type} [DecidableEq α] (f : β → Option (Str × α)) :
    ∀ (l : List β) (acc : List (Str × List α)) (q : Str),
      alookup q (apushFold f acc l) =
        if fvals f q l = [] then alookup q acc
        else some (((alookup q acc).getD []) ++ fvals f q l) := by
  intro l
  induction l with
  | nil => intro acc q; simp [apushFold, fvals]
  | cons e rest ih =>
    intro acc q
    cases hfe : f e with
    | none =>
      have hv : fvals f q (e :: rest) = fvals f q rest := by
        simp [fvals, List.filterMap_cons, hfe]
      have hstep : apushFold f acc (e :: rest) = apushFold f acc rest := by
        simp [apushFold, hfe]
      rw [hstep, ih acc q, hv]
    | some kx =>
      rcases kx with ⟨k0, x0⟩
      have hstep : apushFold f acc (e :: rest) = apushFold f (apush acc k0 x0) rest := by
        simp [apushFold, hfe]
      rw [hstep, ih (apush acc k0 x0) q]
      by_cases hk : k0 = q
      · subst hk
        have hv : fvals f k0 (e :: rest) = x0 :: fvals f k0 rest := by
          simp [fvals, List.filterMap_cons, hfe]
        rw [hv, alookup_apush]
        simp only [if_pos rfl]
        by_cases hrest : fvals f k0 rest = []
        · rw [if_pos hrest, if_neg (List.cons_ne_nil _ _)]
          simp [hrest]
        · rw [if_neg hrest, if_neg (List.cons_ne_nil _ _)]
          simp
      · have hv : fvals f q (e :: rest) = fvals f q rest := by
          simp [fvals, List.filterMap_cons, hfe, hk]
        have hq2 : ¬ q = k0 := fun h' => hk h'.symm
        rw [hv, alookup_apush]
        simp only [if_neg hq2]

theorem apushFold_keys_nodup {β α : Type} (f : β → Option (Str × α)) :
    ∀ (l : List β) (acc : List (Str × List α)),
      (acc.map Prod.fst).Nodup → ((apushFold f acc l).map Prod.fst).Nodup := by
  intro l
  induction l with
  | nil => intro acc h; exact h
  | cons e rest ih =>
    intro acc h
    cases hfe : f e with
    | none => simpa [apushFold, hfe] using ih acc h
    | some kx =>
      have : apushFold f acc (e :: rest) = apushFold f (apush acc kx.1 kx.2) rest := by
        simp [apushFold, hfe]
      rw [this]
      exact ih _ (apush_keys_nodup _ _ _ h)

theorem alookup_of_mem {α : Type} :
    ∀ (ps : List (Str × α)), (ps.map Prod.fst).Nodup →
      ∀ {p : Str} {v : α}, (p, v) ∈ ps → alookup p ps = some v := by
  intro ps
  induction ps with
  | nil => intro _ p v h; exact absurd h (List.not_mem_nil _)
  | cons e rest ih =>
    intro hnd p v hm
    rcases e with ⟨p', v'⟩
    simp only [List.map_cons, List.nodup_cons] at hnd
    rcases List.mem_cons.mp hm with h | h
    · cases h
      simp [alookup]
    · have hne : ¬ p' = p := by
        rintro rfl
        exact hnd.1 (List.mem_map_of_mem Prod.fst h)
      simp only [alookup, if_neg hne]
      exact ih hnd.2 h

theorem simsOf_eq_fvals (hits : List ChildHit) (p : Str) :
    simsOf hits p = fvals hitKV p hits := by
  unfold simsOf fvals
  induction hits with
  | nil => rfl
  | cons h0 rest ih =>
    simp only [List.filterMap_cons]
    cases hpid : hitParentId h0 with
    | none => simp [hitKV, hpid, ih]
    | some pid =>
      by_cases hp : pid = p
      · subst hp; simp [hitKV, hpid, ih]
      · have hps : ¬ (some pid = some p) := by simpa using hp
        simp [hitKV, hpid, hp, hps, ih]

theorem mem_parentScores {hits : List ChildHit} {p : Str} {l : List ℚ}
    (h : (p, l) ∈ parentScores hits) : l = simsOf hits p ∧ l ≠ [] := by
  have hnd : ((parentScores hits).map Prod.fst).Nodup :=
    apushFold_keys_nodup hitKV hits [] (by simp)
  have hl := alookup_of_mem _ hnd h
  rw [show parentScores hits = apushFold hitKV [] hits from rfl, apushFold_alookup] at hl
  have hsims : simsOf hits p = fvals hitKV p hits := simsOf_eq_fvals hits p
  by_cases hz : fvals hitKV p hits = []
  · rw [if_pos hz] at hl
    simp [alookup] at hl
  · rw [if_neg hz] at hl
    simp only [alookup, Option.getD_none, List.nil_append, Option.some.injEq] at hl
    subst hl
    exact ⟨hsims.symm ▸ rfl, hz⟩

theorem mem_speakerParents {hits : List ChildHit} {parents : Str → Option ParentRec}
    {sp : Str} {l : List ChunkData} (h : (sp, l) ∈ speakerParents hits parents) :
    l = fvals (spKV parents) sp (parentScores hits) ∧ l ≠ [] := by
  have hnd : ((speakerParents hits parents).map Prod.fst).Nodup :=
    apushFold_keys_nodup (spKV parents) (parentScores hits) [] (by simp)
  have hl := alookup_of_mem _ hnd h
  rw [show speakerParents hits parents = apushFold (spKV parents) [] (parentScores hits) from rfl,
    apushFold_alookup] at hl
  by_cases hz : fvals (spKV parents) sp (parentScores hits) = []
  · rw [if_pos hz] at hl
    simp [alookup] at hl
  · rw [if_neg hz] at hl
    simp only [alookup, Option.getD_none, List.nil_append, Option.some.injEq] at hl
    exact ⟨hl.symm, hl ▸ hz⟩

/-! ## Membership structure of `rank_speakers` -/

theorem mem_sortCtxDesc {c : SpeakerContext} {l : List SpeakerContext} :
    c ∈ sortCtxDesc l ↔ c ∈ l :=
  (List.perm_insertionSort _ l).mem_iff

theorem mem_primaryPass {sqrt : ℚ → ℚ} {pool : List (Str × List ChunkData)}
    {mc : Nat} {c : SpeakerContext} (h : c ∈ primaryPass sqrt pool mc) :
    ∃ e ∈ pool, c = mkCtx sqrt e.1 e.2 := by
  rcases List.mem_filterMap.mp h with ⟨e, he, hc⟩
  refine ⟨e, he, ?_⟩
  by_cases hlt : e.2.length < mc
  · simp [hlt] at hc
  · simp [hlt] at hc
    exact hc.symm

theorem mem_backfill {sqrt : ℚ → ℚ} {tk : Nat} {c : SpeakerContext} :
    ∀ {pool : List (Str × List ChunkData)} {acc : List SpeakerContext},
      c ∈ backfill sqrt tk pool acc → c ∈ acc ∨ ∃ e ∈ pool, c = mkCtx sqrt e.1 e.2 := by
  intro pool
  induction pool with
  | nil => intro acc h; exact Or.inl h
  | cons e rest ih =>
    intro acc h
    simp only [backfill] at h
    by_cases h1 : acc.any (fun sc => sc.speaker = e.1)
    · rw [if_pos h1] at h
      rcases ih h with h' | ⟨e', he', hc⟩
      · exact Or.inl h'
      · exact Or.inr ⟨e', List.mem_cons_of_mem _ he', hc⟩
    · rw [if_neg h1] at h
      by_cases h2 : tk ≤ acc.length
      · rw [if_pos h2] at h
        exact Or.inl h
      · rw [if_neg h2] at h
        rcases ih h with h' | ⟨e', he', hc⟩
        · rcases List.mem_append.mp h' with h'' | h''
          · exact Or.inl h''
          · exact Or.inr ⟨e, List.mem_cons_self _ _, List.mem_singleton.mp h''⟩
        · exact Or.inr ⟨e', List.mem_cons_of_mem _ he', hc⟩

/-- Every context returned by `rank_speakers` — whether from the primary
pass or the backfill pass — is `mkCtx` applied to one entry of the
per-speaker grouping. -/
theorem mem_rank_speakers {sqrt : ℚ → ℚ} {hits : List ChildHit}
    {parents : Str → Option ParentRec} {tk mc : Nat} {c : SpeakerContext}
    (h : c ∈ rank_speakers sqrt hits parents tk mc) :
    ∃ e ∈ speakerParents hits parents, c = mkCtx sqrt e.1 e.2 := by
  unfold rank_speakers at h
  by_cases hz : hits = []
  · rw [if_pos hz] at h
    exact absurd h (List.not_mem_nil _)
  · rw [if_neg hz] at h
    simp only at h
    have h' := List.mem_of_mem_take h
    by_cases hlen :
        (sortCtxDesc (primaryPass sqrt (speakerParents hits parents) mc)).length < tk
    · rw [if_pos hlen] at h'
      rcases mem_backfill (mem_sortCtxDesc.mp h') with h'' | h''
      · exact mem_primaryPass (mem_sortCtxDesc.mp h'')
      · exact h''
    · rw [if_neg hlen] at h'
      exact mem_primaryPass (mem_sortCtxDesc.mp h')

theorem mem_fvals {β α : Type} {f : β → Option (Str × α)} {k : Str} {l : List β} {c : α} :
    c ∈ fvals f k l ↔ ∃ e ∈ l, f e = some (k, c) := by
  unfold fvals
  rw [List.mem_filterMap]
  constructor
  · rintro ⟨e, he, hc⟩
    refine ⟨e, he, ?_⟩
    cases hfe : f e with
    | none => rw [hfe] at hc; simp at hc
    | some kx =>
      rw [hfe] at hc
      by_cases hk : kx.1 = k
      · simp only [if_pos hk, Option.some.injEq] at hc
        rw [show kx = (kx.1, kx.2) from rfl, hk, hc]
      · simp [hk] at hc
  · rintro ⟨e, he, hfe⟩
    exact ⟨e, he, by simp [hfe]⟩

/-- Each evidence record grouped under a speaker carries: the best child
similarity of its parent, the number of child matches of its parent, and
the text/metadata of its resolved parent whose speaker is that speaker. -/
theorem speakerParents_chunk {hits : List ChildHit} {parents : Str → Option ParentRec}
    {sp : Str} {l : List ChunkData} (h : (sp, l) ∈ speakerParents hits parents) :
    ∀ cd ∈ l, cd.similarity = bestSim hits cd.id ∧
      cd.num_child_matches = (simsOf hits cd.id).length ∧
      ∃ pd, parents cd.id = some pd ∧ cd.text = pd.text ∧ cd.metadata = pd.metadata ∧
        pd.metadata.speaker.getD ("Unknown".data) = sp := by
  intro cd hcd
  rw [(mem_speakerParents h).1] at hcd
  rcases mem_fvals.mp hcd with ⟨e, he, hfe⟩
  rcases e with ⟨pid, scores⟩
  have hscores := mem_parentScores he
  unfold spKV at hfe
  cases hp : parents pid with
  | none => rw [hp] at hfe; simp at hfe
  | some pd =>
    rw [hp] at hfe
    simp only [Option.some.injEq, Prod.mk.injEq] at hfe
    obtain ⟨hsp, hcd'⟩ := hfe
    subst hcd'
    simp only
    refine ⟨?_, ?_, pd, hp, rfl, rfl, hsp⟩
    · rw [hscores.1]; rfl
    · rw [hscores.1]

/-! ## Claim C7 — empty retrieval -/

/-- C7: if the child-collection search returns zero hits, `rank_speakers`
returns the empty list (no error), for every `top_k` and `min_chunks`. -/
theorem claim_C7_empty_retrieval (sqrt : ℚ → ℚ) (parents : Str → Option ParentRec)
    (top_k min_chunks : Nat) :
    rank_speakers sqrt [] parents top_k min_chunks = [] := by
  simp [rank_speakers]

/-! ## Claim C10 — hits without a parent id are skipped -/

theorem parentScores_filter_isSome (hits : List ChildHit) :
    parentScores (hits.filter (fun h => (hitParentId h).isSome)) = parentScores hits := by
  suffices h : ∀ (l : List ChildHit) (acc : List (Str × List ℚ)),
      apushFold hitKV acc (l.filter (fun h => (hitParentId h).isSome)) =
        apushFold hitKV acc l from h hits []
  intro l
  induction l with
  | nil => intro acc; rfl
  | cons h0 rest ih =>
    intro acc
    cases hp : hitParentId h0 with
    | none =>
      have hkv : hitKV h0 = none := by simp [hitKV, hp]
      simp [List.filter_cons, hp, apushFold, hkv, ih]
    | some pid =>
      have hkv : hitKV h0 = some (pid, 1 - h0.distance) := by simp [hitKV, hp]
      simp [List.filter_cons, hp, apushFold, hkv, ih]

/-- C10: child hits whose metadata lacks a parent identifier (key absent or
value the empty string) are silently skipped: the ranking computed from the
full hit list equals the ranking computed from only the hits that carry a
parent id, with no error raised. -/
theorem claim_C10_missing_parent_id_skipped (sqrt : ℚ → ℚ) (hits : List ChildHit)
    (parents : Str → Option ParentRec) (top_k min_chunks : Nat) :
    rank_speakers sqrt hits parents top_k min_chunks =
      rank_speakers sqrt (hits.filter (fun h => (hitParentId h).isSome)) parents
        top_k min_chunks := by
  by_cases hz : hits = []
  · subst hz; rfl
  · by_cases hz2 : hits.filter (fun h => (hitParentId h).isSome) = []
    · have hps : parentScores hits = [] := by
        rw [← parentScores_filter_isSome, hz2]; rfl
      rw [rank_speakers, rank_speakers, if_neg hz, if_pos hz2]
      simp only [speakerParents, hps]
      simp only [show apushFold (spKV parents) ([] : List (Str × List ChunkData)) [] = []
        from rfl]
      simp only [primaryPass, List.filterMap_nil,
        show sortCtxDesc [] = [] from rfl, List.length_nil]
      split
      · simp [backfill, sortCtxDesc, List.insertionSort]
      · simp
    · rw [rank_speakers, rank_speakers, if_neg hz, if_neg hz2]
      simp only [speakerParents, parentScores_filter_isSome]

/-! ## Claim C8 — the scoring denominator is never zero -/

theorem mkCtx_score (sqrt : ℚ → ℚ) (sp : Str) (l : List ChunkData) :
    (mkCtx sqrt sp l).score =
      ((mkCtx sqrt sp l).chunks.map (·.similarity)).sum /
        sqrt ((mkCtx sqrt sp l).chunks.length : ℚ) := by
  have hperm : List.Perm (sortChunksDesc l) l := List.perm_insertionSort _ l
  have h1 : ((sortChunksDesc l).map (·.similarity)).sum = (l.map (·.similarity)).sum :=
    (hperm.map _).sum_eq
  have h2 : (sortChunksDesc l).length = l.length := hperm.length_eq
  unfold mkCtx
  simp only [h1, h2]

/-- C8: in every execution of `rank_speakers` — primary pass or backfill —
each scored speaker has at least one evidence parent, so the denominator
`sqrt(len(chunks))` is only ever applied to a count that is at least 1
(never to zero). -/
theorem claim_C8_no_zero_denominator (sqrt : ℚ → ℚ) (hits : List ChildHit)
    (parents : Str → Option ParentRec) (top_k min_chunks : Nat) (c : SpeakerContext)
    (h : c ∈ rank_speakers sqrt hits parents top_k min_chunks) :
    1 ≤ c.chunks.length ∧
      c.score = (c.chunks.map (·.similarity)).sum / sqrt (c.chunks.length : ℚ) := by
  obtain ⟨e, he, rfl⟩ := mem_rank_speakers h
  rcases e with ⟨sp, l⟩
  have hne : l ≠ [] := (mem_speakerParents he).2
  have hperm : List.Perm (sortChunksDesc l) l := List.perm_insertionSort _ l
  constructor
  · show 1 ≤ (sortChunksDesc l).length
    rw [hperm.length_eq]
    exact List.length_pos.mpr hne
  · exact mkCtx_score sqrt sp l

/-- Witness for C8 at a concrete input: one child hit on parent `"P"`
owned by speaker `"A"` with distance 0. -/
theorem claim_C8_no_zero_denominator_witness :
    1 ≤ (SpeakerContext.mk ['A'] 1 [ChunkData.mk ['P'] ['t'] (PMeta.mk (some ['A'])) 1 1]).chunks.length ∧
      (SpeakerContext.mk ['A'] 1 [ChunkData.mk ['P'] ['t'] (PMeta.mk (some ['A'])) 1 1]).score =
        ((SpeakerContext.mk ['A'] 1 [ChunkData.mk ['P'] ['t'] (PMeta.mk (some ['A'])) 1 1]).chunks.map
          (·.similarity)).sum /
          (fun x : ℚ => x) ((SpeakerContext.mk ['A'] 1 [ChunkData.mk ['P'] ['t'] (PMeta.mk (some ['A'])) 1 1]).chunks.length :
            ℚ) :=
  claim_C8_no_zero_denominator (fun x : ℚ => x)
    [ChildHit.mk (some ['P']) 0]
    (fun s => if s = ['P'] then some (ParentRec.mk ['t'] (PMeta.mk (some ['A']))) else none)
    1 1
    (SpeakerContext.mk ['A'] 1 [ChunkData.mk ['P'] ['t'] (PMeta.mk (some ['A'])) 1 1])
    (by norm_num [rank_speakers, speakerParents, parentScores, apushFold, hitKV,
      hitParentId, apush, spKV, listMaxD, primaryPass, mkCtx, sortChunksDesc, sortCtxDesc,
      backfill, List.insertionSort, List.orderedInsert])

/-! ## Claim C4 — the scoring formula and example scenario 3 -/

theorem fvals_ids_sublist (parents : Str → Option ParentRec) (sp : Str) :
    ∀ ps : List (Str × List ℚ),
      ((fvals (spKV parents) sp ps).map (·.id)).Sublist (ps.map Prod.fst) := by
  intro ps
  induction ps with
  | nil => simp [fvals]
  | cons e rest ih =>
    simp only [fvals, List.filterMap_cons, List.map_cons]
    cases hf : spKV parents e with
    | none => exact List.Sublist.cons _ (by simpa [fvals] using ih)
    | some kx =>
      by_cases hk : kx.1 = sp
      · have hid : kx.2.id = e.1 := by
          unfold spKV at hf
          cases hp : parents e.1 with
          | none => rw [hp] at hf; simp at hf
          | some pd =>
            rw [hp] at hf
            simp only [Option.some.injEq] at hf
            rw [← hf]
        simp only [if_pos hk, List.map_cons, hid]
        exact List.Sublist.cons₂ _ (by simpa [fvals] using ih)
      · simp only [if_neg hk]
        exact List.Sublist.cons _ (by simpa [fvals] using ih)

/-- C4 body. -/
theorem claim_C4_scoring_formula :
    (∀ (sqrt : ℚ → ℚ) (hits : List ChildHit) (parents : Str → Option ParentRec)
        (top_k min_chunks : Nat) (c : SpeakerContext),
        c ∈ rank_speakers sqrt hits parents top_k min_chunks →
        c.score = (c.chunks.map (·.similarity)).sum / sqrt (c.chunks.length : ℚ) ∧
          (∀ cd ∈ c.chunks, cd.similarity = bestSim hits cd.id ∧
            cd.num_child_matches = (simsOf hits cd.id).length) ∧
          (c.chunks.map (·.id)).Nodup) ∧
    (∀ sqrt : ℚ → ℚ, sqrt 1 = 1 →
      (rank_speakers sqrt
          [ChildHit.mk (some ['P','1']) (1/10), ChildHit.mk (some ['P','1']) (2/10),
           ChildHit.mk (some ['P','1']) (3/10), ChildHit.mk (some ['P','2']) (4/10),
           ChildHit.mk (some ['P','2']) (5/10)]
          (fun s =>
            if s = ['P','1'] then some (ParentRec.mk ['t','1'] (PMeta.mk (some ['A'])))
            else if s = ['P','2'] then some (ParentRec.mk ['t','2'] (PMeta.mk (some ['B'])))
            else none)
          5 1).map (fun c => (c.speaker, c.score)) =
        [(['A'], 9/10), (['B'], 6/10)]) := by
  constructor
  · intro sqrt hits parents top_k min_chunks c h
    obtain ⟨e, he, rfl⟩ := mem_rank_speakers h
    rcases e with ⟨sp, l⟩
    have hperm : List.Perm (sortChunksDesc l) l := List.perm_insertionSort _ l
    refine ⟨mkCtx_score sqrt sp l, ?_, ?_⟩
    · intro cd hcd
      have hcd' : cd ∈ l := hperm.mem_iff.mp hcd
      have := speakerParents_chunk he cd hcd'
      exact ⟨this.1, this.2.1⟩
    · have hids : ((fvals (spKV parents) sp (parentScores hits)).map (·.id)).Nodup := by
        have hknd : ((parentScores hits).map Prod.fst).Nodup :=
          apushFold_keys_nodup hitKV hits [] (by simp)
        exact hknd.sublist (fvals_ids_sublist parents sp (parentScores hits))
      have hl := (mem_speakerParents he).1
      show ((sortChunksDesc l).map (·.id)).Nodup
      have : List.Perm ((sortChunksDesc l).map (·.id)) (l.map (·.id)) := hperm.map _
      rw [this.nodup_iff, hl]
      exact hids
  · intro sqrt hsqrt
    norm_num [rank_speakers, speakerParents, parentScores, apushFold, hitKV,
      hitParentId, apush, spKV, listMaxD, primaryPass, mkCtx, sortChunksDesc, sortCtxDesc,
      backfill, List.insertionSort, List.orderedInsert, max_def, hsqrt]
    simp

/-- Witness for C4. -/
theorem claim_C4_scoring_formula_witness :
    ((SpeakerContext.mk ['A'] (9/10)
        [ChunkData.mk ['P','1'] ['t','1'] (PMeta.mk (some ['A'])) (9/10) 3]).score =
      ((SpeakerContext.mk ['A'] (9/10)
        [ChunkData.mk ['P','1'] ['t','1'] (PMeta.mk (some ['A'])) (9/10) 3]).chunks.map
          (·.similarity)).sum /
        (fun x : ℚ => x)
          (((SpeakerContext.mk ['A'] (9/10)
            [ChunkData.mk ['P','1'] ['t','1'] (PMeta.mk (some ['A'])) (9/10) 3]).chunks.length :
              ℚ)) ∧
      (∀ cd ∈ (SpeakerContext.mk ['A'] (9/10)
          [ChunkData.mk ['P','1'] ['t','1'] (PMeta.mk (some ['A'])) (9/10) 3]).chunks,
        cd.similarity =
          bestSim
            [ChildHit.mk (some ['P','1']) (1/10), ChildHit.mk (some ['P','1']) (2/10),
             ChildHit.mk (some ['P','1']) (3/10), ChildHit.mk (some ['P','2']) (4/10),
             ChildHit.mk (some ['P','2']) (5/10)] cd.id ∧
          cd.num_child_matches =
            (simsOf
              [ChildHit.mk (some ['P','1']) (1/10), ChildHit.mk (some ['P','1']) (2/10),
               ChildHit.mk (some ['P','1']) (3/10), ChildHit.mk (some ['P','2']) (4/10),
               ChildHit.mk (some ['P','2']) (5/10)] cd.id).length) ∧
      ((SpeakerContext.mk ['A'] (9/10)
        [ChunkData.mk ['P','1'] ['t','1'] (PMeta.mk (some ['A'])) (9/10) 3]).chunks.map
          (·.id)).Nodup) ∧
    ((rank_speakers (fun x : ℚ => x)
        [ChildHit.mk (some ['P','1']) (1/10), ChildHit.mk (some ['P','1']) (2/10),
         ChildHit.mk (some ['P','1']) (3/10), ChildHit.mk (some ['P','2']) (4/10),
         ChildHit.mk (some ['P','2']) (5/10)]
        (fun s =>
          if s = ['P','1'] then some (ParentRec.mk ['t','1'] (PMeta.mk (some ['A'])))
          else if s = ['P','2'] then some (ParentRec.mk ['t','2'] (PMeta.mk (some ['B'])))
          else none)
        5 1).map (fun c => (c.speaker, c.score)) = [(['A'], 9/10), (['B'], 6/10)]) :=
  ⟨claim_C4_scoring_formula.1 (fun x : ℚ => x)
      [ChildHit.mk (some ['P','1']) (1/10), ChildHit.mk (some ['P','1']) (2/10),
       ChildHit.mk (some ['P','1']) (3/10), ChildHit.mk (some ['P','2']) (4/10),
       ChildHit.mk (some ['P','2']) (5/10)]
      (fun s =>
        if s = ['P','1'] then some (ParentRec.mk ['t','1'] (PMeta.mk (some ['A'])))
        else if s = ['P','2'] then some (ParentRec.mk ['t','2'] (PMeta.mk (some ['B'])))
        else none)
      5 1
      (SpeakerContext.mk ['A'] (9/10)
        [ChunkData.mk ['P','1'] ['t','1'] (PMeta.mk (some ['A'])) (9/10) 3])
      (by
        norm_num [rank_speakers, speakerParents, parentScores, apushFold, hitKV,
          hitParentId, apush, spKV, listMaxD, primaryPass, mkCtx, sortChunksDesc,
          sortCtxDesc, backfill, List.insertionSort, List.orderedInsert, max_def]
        simp),
    claim_C4_scoring_formula.2 (fun x : ℚ => x) rfl⟩

/-! ## Claim C1 — what the backfill pass actually appends -/

theorem key_unique {α : Type} {ps : List (Str × α)} (hnd : (ps.map Prod.fst).Nodup)
    {e e' : Str × α} (he : e ∈ ps) (he' : e' ∈ ps) (hk : e.1 = e'.1) : e = e' := by
  have h1 : alookup e.1 ps = some e.2 := alookup_of_mem ps hnd he
  have h2 : alookup e'.1 ps = some e'.2 := alookup_of_mem ps hnd he'
  rw [hk, h2] at h1
  have : e'.2 = e.2 := by injection h1
  calc e = (e.1, e.2) := rfl
  _ = (e'.1, e'.2) := by rw [hk, this]
  _ = e' := rfl

theorem backfill_eq_append (sqrt : ℚ → ℚ) (tk : Nat) :
    ∀ (pool : List (Str × List ChunkData)) (acc : List SpeakerContext),
      (pool.map Prod.fst).Nodup →
      backfill sqrt tk pool acc =
        acc ++
          ((pool.filter
              (fun e => !(acc.any (fun sc => sc.speaker = e.1)))).take (tk - acc.length)).map
            (fun e => mkCtx sqrt e.1 e.2) := by
  intro pool
  induction pool with
  | nil => intro acc _; simp [backfill]
  | cons e rest ih =>
    intro acc hnd
    simp only [List.map_cons, List.nodup_cons] at hnd
    by_cases hmem : acc.any (fun sc => sc.speaker = e.1)
    · rw [show backfill sqrt tk (e :: rest) acc = backfill sqrt tk rest acc from by
        simp [backfill, hmem]]
      rw [ih acc hnd.2]
      have : (e :: rest).filter (fun e => !(acc.any (fun sc => sc.speaker = e.1))) =
          rest.filter (fun e => !(acc.any (fun sc => sc.speaker = e.1))) := by
        rw [List.filter_cons]
        simp [hmem]
      rw [this]
    · by_cases htk : tk ≤ acc.length
      · rw [show backfill sqrt tk (e :: rest) acc = acc from by
          simp [backfill, hmem, htk]]
        rw [Nat.sub_eq_zero_of_le htk]
        simp
      · rw [show backfill sqrt tk (e :: rest) acc =
            backfill sqrt tk rest (acc ++ [mkCtx sqrt e.1 e.2]) from by
          simp [backfill, hmem, htk]]
        rw [ih _ hnd.2]
        have hfe : ∀ x ∈ rest,
            (!((acc ++ [mkCtx sqrt e.1 e.2]).any (fun sc => sc.speaker = x.1))) =
              (!(acc.any (fun sc => sc.speaker = x.1))) := by
          intro x hx
          have hne : ¬ (e.1 = x.1) := by
            intro h'
            exact hnd.1 (h' ▸ List.mem_map_of_mem Prod.fst hx)
          have hne2 : ¬ (x.1 = e.1) := fun h' => hne h'.symm
          simp [List.any_append, mkCtx, hne, hne2]
        rw [List.filter_congr hfe]
        have hcons : (e :: rest).filter (fun e => !(acc.any (fun sc => sc.speaker = e.1))) =
            e :: rest.filter (fun e => !(acc.any (fun sc => sc.speaker = e.1))) := by
          rw [List.filter_cons]
          simp [hmem]
        rw [hcons]
        have hpos : 0 < tk - acc.length := Nat.sub_pos_of_lt (Nat.lt_of_not_le htk)
        rw [show tk - acc.length = (tk - acc.length - 1) + 1 from
          (Nat.succ_pred_eq_of_pos hpos).symm]
        rw [List.take_succ_cons, List.map_cons]
        simp only [List.length_append, List.length_singleton]
        rw [show tk - (acc.length + 1) = tk - acc.length - 1 from (Nat.sub_sub tk _ 1)]
        simp

theorem mem_primaryPass_qualified {sqrt : ℚ → ℚ} {pool : List (Str × List ChunkData)}
    {mc : Nat} {c : SpeakerContext} (h : c ∈ primaryPass sqrt pool mc) :
    ∃ e ∈ pool, ¬ (e.2.length < mc) ∧ c = mkCtx sqrt e.1 e.2 := by
  rcases List.mem_filterMap.mp h with ⟨e, he, hc⟩
  by_cases hlt : e.2.length < mc
  · simp [hlt] at hc
  · simp [hlt] at hc
    exact ⟨e, he, hlt, hc.symm⟩

theorem backfill_skip_iff_qualified (sqrt : ℚ → ℚ)
    (pool : List (Str × List ChunkData)) (mc : Nat)
    (hnd : (pool.map Prod.fst).Nodup) :
    ∀ e ∈ pool,
      (!((sortCtxDesc (primaryPass sqrt pool mc)).any (fun sc => sc.speaker = e.1))) =
        decide (e.2.length < mc) := by
  intro e he
  by_cases hq : e.2.length < mc
  · rw [decide_eq_true hq, Bool.not_eq_true', List.any_eq_false]
    intro sc hsc
    rcases mem_primaryPass_qualified (mem_sortCtxDesc.mp hsc) with ⟨h0, he0, hq0, hc0⟩
    simp only [decide_eq_true_eq]
    intro hsp
    have hkey : h0.1 = e.1 := by rw [← hsp, hc0]; rfl
    have hee := key_unique hnd he0 he hkey
    rw [hee] at hq0
    exact hq0 hq
  · rw [decide_eq_false hq, Bool.not_eq_false', List.any_eq_true]
    refine ⟨mkCtx sqrt e.1 e.2, mem_sortCtxDesc.mpr ?_, by simp [mkCtx]⟩
    exact List.mem_filterMap.mpr ⟨e, he, by simp [hq]⟩

/-- C1 amended. -/
theorem claim_C1_amended (sqrt : ℚ → ℚ) (hits : List ChildHit)
    (parents : Str → Option ParentRec) (top_k min_chunks : Nat)
    (hne : hits ≠ [])
    (hlen : (sortCtxDesc (primaryPass sqrt (speakerParents hits parents) min_chunks)).length
      < top_k) :
    rank_speakers sqrt hits parents top_k min_chunks =
      (sortCtxDesc
          (sortCtxDesc (primaryPass sqrt (speakerParents hits parents) min_chunks) ++
            (((speakerParents hits parents).filter
                  (fun e => e.2.length < min_chunks)).take
                (top_k -
                  (sortCtxDesc
                    (primaryPass sqrt (speakerParents hits parents) min_chunks)).length)).map
              (fun e => mkCtx sqrt e.1 e.2))).take top_k := by
  have hnd : ((speakerParents hits parents).map Prod.fst).Nodup :=
    apushFold_keys_nodup _ _ [] (by simp)
  unfold rank_speakers
  rw [if_neg hne]
  simp only [if_pos hlen]
  rw [backfill_eq_append sqrt top_k _ _ hnd]
  rw [List.filter_congr (backfill_skip_iff_qualified sqrt (speakerParents hits parents)
    min_chunks hnd)]

/-- C1 counterexample. -/
theorem claim_C1_counterexample :
    (rank_speakers (fun x : ℚ => x)
        [ChildHit.mk (some ['P','1']) (1/2), ChildHit.mk (some ['P','2']) (1/10)]
        (fun s =>
          if s = ['P','1'] then some (ParentRec.mk ['t'] (PMeta.mk (some ['X'])))
          else if s = ['P','2'] then some (ParentRec.mk ['u'] (PMeta.mk (some ['Y'])))
          else none)
        1 2).map (fun c => (c.speaker, c.score)) = [(['X'], 1/2)] ∧
    bestSim
        [ChildHit.mk (some ['P','1']) (1/2), ChildHit.mk (some ['P','2']) (1/10)]
        ['P','2'] / (fun x : ℚ => x) 1 = 9/10 ∧
    ((1:ℚ)/2 < 9/10) := by
  refine ⟨?_, ?_, by norm_num⟩
  · norm_num [rank_speakers, speakerParents, parentScores, apushFold, hitKV,
      hitParentId, apush, spKV, listMaxD, primaryPass, mkCtx, sortChunksDesc, sortCtxDesc,
      backfill, List.insertionSort, List.orderedInsert, max_def]
    simp
  · norm_num +decide [bestSim, simsOf, hitParentId, listMaxD, List.filterMap_cons]

/-- Witness for the amended C1. -/
theorem claim_C1_amended_witness :
    rank_speakers (fun x : ℚ => x)
        [ChildHit.mk (some ['P','1']) (1/2), ChildHit.mk (some ['P','2']) (1/10)]
        (fun s =>
          if s = ['P','1'] then some (ParentRec.mk ['t'] (PMeta.mk (some ['X'])))
          else if s = ['P','2'] then some (ParentRec.mk ['u'] (PMeta.mk (some ['Y'])))
          else none)
        1 2 =
      (sortCtxDesc
          (sortCtxDesc
              (primaryPass (fun x : ℚ => x)
                (speakerParents
                  [ChildHit.mk (some ['P','1']) (1/2), ChildHit.mk (some ['P','2']) (1/10)]
                  (fun s =>
                    if s = ['P','1'] then some (ParentRec.mk ['t'] (PMeta.mk (some ['X'])))
                    else if s = ['P','2'] then some (ParentRec.mk ['u'] (PMeta.mk (some ['Y'])))
                    else none)) 2) ++
            (((speakerParents
                  [ChildHit.mk (some ['P','1']) (1/2), ChildHit.mk (some ['P','2']) (1/10)]
                  (fun s =>
                    if s = ['P','1'] then some (ParentRec.mk ['t'] (PMeta.mk (some ['X'])))
                    else if s = ['P','2'] then some (ParentRec.mk ['u'] (PMeta.mk (some ['Y'])))
                    else none)).filter
                  (fun e => e.2.length < 2)).take
                (1 -
                  (sortCtxDesc
                    (primaryPass (fun x : ℚ => x)
                      (speakerParents
                        [ChildHit.mk (some ['P','1']) (1/2),
                         ChildHit.mk (some ['P','2']) (1/10)]
                        (fun s =>
                          if s = ['P','1'] then some (ParentRec.mk ['t'] (PMeta.mk (some ['X'])))
                          else if s = ['P','2'] then
                            some (ParentRec.mk ['u'] (PMeta.mk (some ['Y'])))
                          else none)) 2)).length)).map
              (fun e => mkCtx (fun x : ℚ => x) e.1 e.2))).take 1 :=
  claim_C1_amended (fun x : ℚ => x)
    [ChildHit.mk (some ['P','1']) (1/2), ChildHit.mk (some ['P','2']) (1/10)]
    (fun s =>
      if s = ['P','1'] then some (ParentRec.mk ['t'] (PMeta.mk (some ['X'])))
      else if s = ['P','2'] then some (ParentRec.mk ['u'] (PMeta.mk (some ['Y'])))
      else none)
    1 2
    (by simp)
    (by
      norm_num +decide [speakerParents, parentScores, apushFold, hitKV, hitParentId,
        apush, spKV, listMaxD, primaryPass, mkCtx, sortChunksDesc, sortCtxDesc,
        List.insertionSort, List.orderedInsert, max_def])

/-! ## Claim C5 — score monotonicity and ranking order -/

instance : IsTotal SpeakerContext (fun a b => b.score ≤ a.score) :=
  ⟨fun a b => le_total b.score a.score⟩

instance : IsTrans SpeakerContext (fun a b => b.score ≤ a.score) :=
  ⟨fun _ _ _ h1 h2 => le_trans h2 h1⟩

theorem rank_speakers_sorted (sqrt : ℚ → ℚ) (hits : List ChildHit)
    (parents : Str → Option ParentRec) (top_k min_chunks : Nat) :
    (rank_speakers sqrt hits parents top_k min_chunks).Sorted
      (fun a b => b.score ≤ a.score) := by
  unfold rank_speakers
  split
  · simp
  · simp only
    split
    · exact List.Pairwise.sublist (List.take_sublist _ _) (List.sorted_insertionSort _ _)
    · exact List.Pairwise.sublist (List.take_sublist _ _) (List.sorted_insertionSort _ _)

theorem sum_le_sum_forall2 :
    ∀ {l1 l2 : List ℚ}, List.Forall₂ (· < ·) l1 l2 → l1.sum ≤ l2.sum := by
  intro l1 l2 h
  induction h with
  | nil => simp
  | cons h1 _ ih =>
    simp only [List.sum_cons]
    exact add_le_add (le_of_lt h1) ih

theorem sum_lt_sum_forall2 {l1 l2 : List ℚ} (h : List.Forall₂ (· < ·) l1 l2)
    (hne : l1 ≠ []) : l1.sum < l2.sum := by
  cases h with
  | nil => exact absurd rfl hne
  | cons h1 htail =>
    simp only [List.sum_cons]
    exact add_lt_add_of_lt_of_le h1 (sum_le_sum_forall2 htail)

/-- C5 amended. -/
theorem claim_C5_amended (sqrt : ℚ → ℚ) (hits : List ChildHit)
    (parents : Str → Option ParentRec) (top_k min_chunks : Nat) (i j : Nat)
    (c1 c2 : SpeakerContext)
    (h1 : (rank_speakers sqrt hits parents top_k min_chunks).get? i = some c1)
    (h2 : (rank_speakers sqrt hits parents top_k min_chunks).get? j = some c2)
    (hlen : c1.chunks.length = c2.chunks.length)
    (hdom : List.Forall₂ (· < ·) (c2.chunks.map (·.similarity)) (c1.chunks.map (·.similarity)))
    (hpos : 0 < sqrt (c1.chunks.length : ℚ)) :
    i < j := by
  have hm1 : c1 ∈ rank_speakers sqrt hits parents top_k min_chunks := List.get?_mem h1
  have hm2 : c2 ∈ rank_speakers sqrt hits parents top_k min_chunks := List.get?_mem h2
  have hs1 := claim_C8_no_zero_denominator sqrt hits parents top_k min_chunks c1 hm1
  have hs2 := claim_C8_no_zero_denominator sqrt hits parents top_k min_chunks c2 hm2
  have hne2 : c2.chunks.map (·.similarity) ≠ [] := by
    have hone : 1 ≤ c2.chunks.length := hs2.1
    intro hh
    rw [List.map_eq_nil_iff] at hh
    rw [hh] at hone
    simp at hone
  have hsum : (c2.chunks.map (·.similarity)).sum < (c1.chunks.map (·.similarity)).sum :=
    sum_lt_sum_forall2 hdom hne2
  have hscore : c2.score < c1.score := by
    rw [hs1.2, hs2.2, ← hlen]
    exact div_lt_div_of_pos_right hsum hpos
  by_contra hij
  push_neg at hij
  rcases List.get?_eq_some.mp h1 with ⟨hi, hgi⟩
  rcases List.get?_eq_some.mp h2 with ⟨hj, hgj⟩
  rcases Nat.lt_or_ge j i with hji | hji
  · have hrel := (rank_speakers_sorted sqrt hits parents top_k min_chunks).rel_get_of_lt
      (show (⟨j, hj⟩ : Fin _) < ⟨i, hi⟩ from hji)
    rw [hgi, hgj] at hrel
    exact absurd hrel (not_le_of_lt hscore)
  · have hij2 : i = j := le_antisymm hji hij
    subst hij2
    rw [h1] at h2
    injection h2 with h2
    rw [h2] at hscore
    exact lt_irrefl _ hscore

/-- C5 counterexample. -/
theorem claim_C5_counterexample :
    (rank_speakers (fun x : ℚ => x)
        [ChildHit.mk (some ['P','1']) (9/10), ChildHit.mk (some ['P','2']) (1/10)]
        (fun s =>
          if s = ['P','1'] then some (ParentRec.mk ['t'] (PMeta.mk (some ['S','2'])))
          else if s = ['P','2'] then some (ParentRec.mk ['u'] (PMeta.mk (some ['S','1'])))
          else none)
        1 2).map (fun c => c.speaker) = [['S','2']] ∧
    bestSim
        [ChildHit.mk (some ['P','1']) (9/10), ChildHit.mk (some ['P','2']) (1/10)]
        ['P','2'] = 9/10 ∧
    bestSim
        [ChildHit.mk (some ['P','1']) (9/10), ChildHit.mk (some ['P','2']) (1/10)]
        ['P','1'] = 1/10 ∧
    (simsOf
        [ChildHit.mk (some ['P','1']) (9/10), ChildHit.mk (some ['P','2']) (1/10)]
        ['P','1']).length =
      (simsOf
        [ChildHit.mk (some ['P','1']) (9/10), ChildHit.mk (some ['P','2']) (1/10)]
        ['P','2']).length ∧
    ((1:ℚ)/10 < 9/10) := by
  refine ⟨?_, ?_, ?_, ?_, by norm_num⟩
  · norm_num +decide [rank_speakers, speakerParents, parentScores, apushFold, hitKV,
      hitParentId, apush, spKV, listMaxD, primaryPass, mkCtx, sortChunksDesc, sortCtxDesc,
      backfill, List.insertionSort, List.orderedInsert, max_def]
  · norm_num +decide [bestSim, simsOf, hitParentId, listMaxD, List.filterMap_cons]
  · norm_num +decide [bestSim, simsOf, hitParentId, listMaxD, List.filterMap_cons]
  · norm_num +decide [simsOf, hitParentId, List.filterMap_cons]

/-- Witness for the amended C5. -/
theorem claim_C5_amended_witness : (0 : Nat) < 1 :=
  claim_C5_amended (fun x : ℚ => x)
    [ChildHit.mk (some ['P','1']) (1/10), ChildHit.mk (some ['P','2']) (4/10)]
    (fun s =>
      if s = ['P','1'] then some (ParentRec.mk ['t','1'] (PMeta.mk (some ['A'])))
      else if s = ['P','2'] then some (ParentRec.mk ['t','2'] (PMeta.mk (some ['B'])))
      else none)
    5 1 0 1
    (SpeakerContext.mk ['A'] (9/10)
      [ChunkData.mk ['P','1'] ['t','1'] (PMeta.mk (some ['A'])) (9/10) 1])
    (SpeakerContext.mk ['B'] (3/5)
      [ChunkData.mk ['P','2'] ['t','2'] (PMeta.mk (some ['B'])) (3/5) 1])
    (by
      norm_num +decide [rank_speakers, speakerParents, parentScores, apushFold, hitKV,
        hitParentId, apush, spKV, listMaxD, primaryPass, mkCtx, sortChunksDesc, sortCtxDesc,
        backfill, List.insertionSort, List.orderedInsert, max_def])
    (by
      norm_num +decide [rank_speakers, speakerParents, parentScores, apushFold, hitKV,
        hitParentId, apush, spKV, listMaxD, primaryPass, mkCtx, sortChunksDesc, sortCtxDesc,
        backfill, List.insertionSort, List.orderedInsert, max_def])
    (by norm_num)
    (List.Forall₂.cons (by norm_num) List.Forall₂.nil)
    (by norm_num)

/-! ## Parser data model and `chunk_turn` (`src/roundtable/parser.py`) -/

/-- The `Turn` dataclass from `parser.py`. -/
structure Turn where
  speaker : Str
  timestamp : Str
  text : Str
  preceding_question : Str
  source_file : Str
deriving DecidableEq, Repr

/-- One chunk dictionary produced by `chunk_turn`: the chunk text, all the
turn metadata, and the sequential chunk index. -/
structure Chunk where
  text : Str
  speaker : Str
  timestamp : Str
  preceding_question : Str
  source_file : Str
  chunk_index : Nat
deriving DecidableEq, Repr

/-- Build one chunk dictionary from a turn (all metadata copied). -/
def mkChunk (turn : Turn) (text : Str) (i : Nat) : Chunk :=
  { text := text, speaker := turn.speaker, timestamp := turn.timestamp,
    preceding_question := turn.preceding_question, source_file := turn.source_file,
    chunk_index := i }

/-- Python `text.split('\n\n')`: leftmost, non-overlapping splitting on the
two-character separator, keeping empty pieces. -/
def splitOnSep : Str → List Str
  | [] => [[]]
  | [c] => [[c]]
  | c1 :: c2 :: rest =>
    if c1 = '\n' ∧ c2 = '\n' then [] :: splitOnSep rest
    else
      match splitOnSep (c2 :: rest) with
      | [] => [[c1]]
      | p :: ps => (c1 :: p) :: ps

/-- `'\n\n'.join(...)`, the inverse of `splitOnSep`. -/
def joinSep : List Str → Str
  | [] => []
  | [p] => p
  | p :: p2 :: ps => p ++ '\n' :: '\n' :: joinSep (p2 :: ps)

/-- Python `current_chunk[-overlap:] if len(current_chunk) > overlap else
current_chunk`.  Note the Python slicing quirk: `s[-0:]` is the whole
string, so with `overlap = 0` and a nonempty buffer the "overlap" is the
entire buffer. -/
def pyLastSlice (s : Str) (ov : Nat) : Str :=
  if s.length > ov then (if ov = 0 then s else s.drop (s.length - ov)) else s

/-- The paragraph-accumulation loop of `chunk_turn`, threading the state
`(chunks, current_chunk, chunk_index)` through the paragraph list. -/
def chunkLoop (turn : Turn) (max_chars overlap : Nat) :
    List Str → List Chunk × Str × Nat → List Chunk × Str × Nat
  | [], st => st
  | para :: rest, (chunks, current, idx) =>
    if current.length + para.length + 2 ≤ max_chars then
      chunkLoop turn max_chars overlap rest
        (chunks, (if current ≠ [] then current ++ '\n' :: '\n' :: para else para), idx)
    else
      if current ≠ [] then
        chunkLoop turn max_chars overlap rest
          (chunks ++ [mkChunk turn current idx],
            pyLastSlice current overlap ++ '\n' :: '\n' :: para, idx + 1)
      else
        chunkLoop turn max_chars overlap rest (chunks, para, idx)

/-- `chunk_turn` from `parser.py`: single chunk when the text fits,
otherwise paragraph accumulation with overlap seeding; the final buffer is
kept only when nonempty and at least 100 characters long. -/
def chunk_turn (turn : Turn) (max_chars overlap : Nat) : List Chunk :=
  if turn.text.length ≤ max_chars then [mkChunk turn turn.text 0]
  else
    let st := chunkLoop turn max_chars overlap (splitOnSep turn.text) ([], [], 0)
    if st.2.1 ≠ [] ∧ 100 ≤ st.2.1.length then st.1 ++ [mkChunk turn st.2.1 st.2.2]
    else st.1

/-- The length of the longest paragraph. -/
def paraMax (l : List Str) : Nat :=
  (l.map List.length).foldr max 0

/-- Remove the known overlap prefix from each chunk after the first:
chunk `i+1` begins with `pyLastSlice` of chunk `i` (the seeded overlap), so
reconstruction drops exactly that many characters. -/
def reconDrop (ov : Nat) : Str → List Str → Str
  | _, [] => []
  | prev, c :: cs => c.drop (pyLastSlice prev ov).length ++ reconDrop ov c cs

/-- Concatenate a chunk-text sequence, removing the known overlap between
each consecutive pair. -/
def reconstruct (ov : Nat) : List Str → Str
  | [] => []
  | c :: cs => c ++ reconDrop ov c cs

/-! ## Claim C2 — the chunk length bound -/

/-- C2 counterexample: with `max_chars = 10`, `overlap = 4` and paragraphs
of lengths 8, 9 and 2 (text 23 chars), the second emitted chunk is the
overlap seed `"aaaa\n\nbbbbbbbbb"` of length 15 > 10, yet no single
paragraph exceeds 10 and the chunk is not a paragraph of the text — so the
claimed bound (every chunk fits except single oversized paragraphs) is
false. -/
theorem claim_C2_counterexample :
    ¬ (∀ c ∈ chunk_turn
          (Turn.mk "s".data "ts".data "aaaaaaaa\n\nbbbbbbbbb\n\ncc".data [] "f".data) 10 4,
        c.text.length ≤ 10 ∨
          (c.text ∈ splitOnSep
              (Turn.mk "s".data "ts".data "aaaaaaaa\n\nbbbbbbbbb\n\ncc".data [] "f".data).text ∧
            10 < c.text.length)) := by
  decide

theorem pyLastSlice_length_le (s : Str) (ov : Nat) (h : 1 ≤ ov) :
    (pyLastSlice s ov).length ≤ ov := by
  unfold pyLastSlice
  by_cases hl : s.length > ov
  · rw [if_pos hl, if_neg (by omega : ¬ ov = 0)]
    simp
    omega
  · rw [if_neg hl]
    omega

theorem le_paraMax : ∀ (l : List Str), ∀ p ∈ l, p.length ≤ paraMax l := by
  intro l
  induction l with
  | nil => intro p hp; exact absurd hp (List.not_mem_nil _)
  | cons q rest ih =>
    intro p hp
    rcases List.mem_cons.mp hp with h | h
    · subst h
      simp only [paraMax, List.map_cons, List.foldr_cons]
      exact Nat.le_max_left _ _
    · have := ih p h
      simp only [paraMax, List.map_cons, List.foldr_cons]
      exact le_trans this (Nat.le_max_right _ _)

theorem chunkLoop_bound (turn : Turn) (mc ov M : Nat) (hov : 1 ≤ ov) :
    ∀ (paras : List Str) (chunks : List Chunk) (current : Str) (idx : Nat),
      (∀ p ∈ paras, p.length ≤ M) →
      (∀ c ∈ chunks, c.text.length ≤ max mc (ov + 2 + M)) →
      current.length ≤ max mc (ov + 2 + M) →
      (∀ c ∈ (chunkLoop turn mc ov paras (chunks, current, idx)).1,
          c.text.length ≤ max mc (ov + 2 + M)) ∧
        (chunkLoop turn mc ov paras (chunks, current, idx)).2.1.length ≤
          max mc (ov + 2 + M) := by
  intro paras
  induction paras with
  | nil => intro chunks current idx _ hc hcur; exact ⟨hc, hcur⟩
  | cons para rest ih =>
    intro chunks current idx hp hc hcur
    have hpM : para.length ≤ M := hp para (List.mem_cons_self _ _)
    have hpRest : ∀ p ∈ rest, p.length ≤ M := fun p h => hp p (List.mem_cons_of_mem _ h)
    rw [chunkLoop]
    by_cases hfit : current.length + para.length + 2 ≤ mc
    · rw [if_pos hfit]
      refine ih chunks _ idx hpRest hc ?_
      by_cases hne : current ≠ []
      · simp only [if_pos hne, List.length_append, List.length_cons]
        refine le_trans ?_ (Nat.le_max_left mc (ov + 2 + M))
        omega
      · simp only [if_neg hne]
        refine le_trans ?_ (Nat.le_max_right mc (ov + 2 + M))
        omega
    · rw [if_neg hfit]
      by_cases hne : current ≠ []
      · rw [if_pos hne]
        refine ih _ _ _ hpRest ?_ ?_
        · intro c hcm
          rcases List.mem_append.mp hcm with h | h
          · exact hc c h
          · rw [List.mem_singleton.mp h]
            exact hcur
        · have h1 : (pyLastSlice current ov).length ≤ ov := pyLastSlice_length_le _ _ hov
          simp only [List.length_append, List.length_cons]
          refine le_trans ?_ (Nat.le_max_right mc (ov + 2 + M))
          omega
      · rw [if_neg hne]
        refine ih chunks para idx hpRest hc ?_
        refine le_trans ?_ (Nat.le_max_right mc (ov + 2 + M))
        omega

/-- C2 amended. -/
theorem claim_C2_amended (turn : Turn) (max_chars overlap : Nat) (hov : 1 ≤ overlap) :
    ∀ c ∈ chunk_turn turn max_chars overlap,
      c.text.length ≤ max max_chars (overlap + 2 + paraMax (splitOnSep turn.text)) := by
  intro c hc
  unfold chunk_turn at hc
  by_cases hsmall : turn.text.length ≤ max_chars
  · rw [if_pos hsmall] at hc
    rw [List.mem_singleton.mp hc]
    exact le_trans hsmall (Nat.le_max_left _ _)
  · rw [if_neg hsmall] at hc
    simp only at hc
    have hb := chunkLoop_bound turn max_chars overlap (paraMax (splitOnSep turn.text)) hov
      (splitOnSep turn.text) [] [] 0 (le_paraMax _) (by simp) (by simp)
    split at hc
    · rcases List.mem_append.mp hc with h | h
      · exact hb.1 c h
      · rw [List.mem_singleton.mp h]
        exact hb.2
    · exact hb.1 c hc

/-- Witness for the amended C2, instantiated at the first emitted chunk. -/
theorem claim_C2_amended_witness :
    (Chunk.mk "aaaaaaaa".data "s".data "ts".data [] "f".data 0).text.length ≤
      max 10 (4 + 2 + paraMax (splitOnSep
        (Turn.mk "s".data "ts".data "aaaaaaaa\n\nbbbbbbbbb\n\ncc".data [] "f".data).text)) :=
  claim_C2_amended
    (Turn.mk "s".data "ts".data "aaaaaaaa\n\nbbbbbbbbb\n\ncc".data [] "f".data) 10 4
    (by decide)
    (Chunk.mk "aaaaaaaa".data "s".data "ts".data [] "f".data 0)
    (by decide)

theorem splitOnSep_ne_nil (t : Str) : splitOnSep t ≠ [] := by
  match t with
  | [] => simp [splitOnSep]
  | [c] => simp [splitOnSep]
  | c1 :: c2 :: rest =>
    rw [show splitOnSep (c1 :: c2 :: rest) =
        (if c1 = '\n' ∧ c2 = '\n' then [] :: splitOnSep rest
         else
           match splitOnSep (c2 :: rest) with
           | [] => [[c1]]
           | p :: ps => (c1 :: p) :: ps) from rfl]
    split
    · simp
    · split <;> simp

/-- `'\n\n'.join` of the pieces after the first, each preceded by the
separator. -/
def seplist : List Str → Str
  | [] => []
  | p :: ps => '\n' :: '\n' :: (p ++ seplist ps)

theorem joinSep_cons (p : Str) (ps : List Str) : joinSep (p :: ps) = p ++ seplist ps := by
  induction ps generalizing p with
  | nil => simp [joinSep, seplist]
  | cons q qs ih =>
    rw [show joinSep (p :: q :: qs) = p ++ '\n' :: '\n' :: joinSep (q :: qs) from rfl]
    rw [ih q, seplist]

theorem joinSep_splitOnSep (t : Str) : joinSep (splitOnSep t) = t := by
  induction t using splitOnSep.induct with
  | case1 => rfl
  | case2 c => rfl
  | case3 c1 c2 rest hsep ih =>
    obtain ⟨rfl, rfl⟩ := hsep
    have e : splitOnSep ('\n' :: '\n' :: rest) = [] :: splitOnSep rest := rfl
    rw [e]
    obtain ⟨p, ps, hps⟩ : ∃ p ps, splitOnSep rest = p :: ps := by
      cases h : splitOnSep rest with
      | nil => exact absurd h (splitOnSep_ne_nil rest)
      | cons p ps => exact ⟨p, ps, rfl⟩
    rw [hps] at ih ⊢
    rw [show joinSep ([] :: p :: ps) = [] ++ '\n' :: '\n' :: joinSep (p :: ps) from rfl]
    rw [ih]
    rfl
  | case4 c1 c2 rest hsep hm ih =>
    exact absurd hm (splitOnSep_ne_nil _)
  | case5 c1 c2 rest hsep p ps hm ih =>
    have e : splitOnSep (c1 :: c2 :: rest) = (c1 :: p) :: ps := by
      rw [show splitOnSep (c1 :: c2 :: rest) =
          (if c1 = '\n' ∧ c2 = '\n' then [] :: splitOnSep rest
           else
             match splitOnSep (c2 :: rest) with
             | [] => [[c1]]
             | p :: ps => (c1 :: p) :: ps) from rfl]
      rw [if_neg hsep, hm]
    rw [e]
    rw [hm] at ih
    rw [joinSep_cons] at ih ⊢
    simp only [List.cons_append]
    rw [ih]

theorem reconDrop_append (ov : Nat) :
    ∀ (xs : List Str) (prev y : Str),
      reconDrop ov prev (xs ++ [y]) =
        reconDrop ov prev xs ++ y.drop (pyLastSlice (xs.getLastD prev) ov).length := by
  intro xs
  induction xs with
  | nil => intro prev y; simp [reconDrop]
  | cons c cs ih =>
    intro prev y
    simp only [List.cons_append, reconDrop, List.append_eq]
    rw [ih c, List.getLastD_cons]
    simp [List.append_assoc]

theorem reconstruct_append (ov : Nat) (x : Str) (xs : List Str) (y : Str) :
    reconstruct ov (x :: xs ++ [y]) =
      reconstruct ov (x :: xs) ++ y.drop (pyLastSlice (xs.getLastD x) ov).length := by
  rw [List.cons_append]
  rw [show reconstruct ov (x :: (xs ++ [y])) = x ++ reconDrop ov x (xs ++ [y]) from rfl]
  rw [reconDrop_append]
  rw [show reconstruct ov (x :: xs) = x ++ reconDrop ov x xs from rfl]
  simp [List.append_assoc]

theorem reconstruct_concat (ov : Nat) (xs : List Str) (y : Str) (hxs : xs ≠ []) :
    reconstruct ov (xs ++ [y]) =
      reconstruct ov xs ++ y.drop (pyLastSlice (xs.getLastD []) ov).length := by
  obtain ⟨x, xs', rfl⟩ := List.exists_cons_of_ne_nil hxs
  rw [reconstruct_append, List.getLastD_cons]

theorem recon_extend (ov : Nat) (chunks : List Chunk) (current add : Str)
    (hinv : chunks = [] ∨
      (pyLastSlice ((chunks.map (·.text)).getLastD []) ov).length ≤ current.length) :
    reconstruct ov (chunks.map (·.text) ++ [current ++ add]) =
      reconstruct ov (chunks.map (·.text) ++ [current]) ++ add := by
  by_cases hc0 : chunks = []
  · subst hc0; simp [reconstruct, reconDrop]
  · have h : (pyLastSlice ((chunks.map (·.text)).getLastD []) ov).length ≤ current.length :=
      hinv.resolve_left hc0
    have hm : chunks.map (·.text) ≠ [] := by
      simpa [List.map_eq_nil_iff] using hc0
    rw [reconstruct_concat ov _ _ hm, reconstruct_concat ov _ _ hm]
    rw [List.drop_append_of_le_length h]
    simp [List.append_assoc]

theorem chunkLoop_recon (turn : Turn) (mc ov : Nat) :
    ∀ (paras : List Str) (chunks : List Chunk) (current : Str) (idx : Nat),
      current ≠ [] →
      (chunks = [] ∨
        (pyLastSlice ((chunks.map (·.text)).getLastD []) ov).length ≤ current.length) →
      (chunkLoop turn mc ov paras (chunks, current, idx)).2.1 ≠ [] ∧
      ((chunkLoop turn mc ov paras (chunks, current, idx)).1 = [] ∨
        (pyLastSlice
            (((chunkLoop turn mc ov paras (chunks, current, idx)).1.map (·.text)).getLastD [])
            ov).length ≤
          (chunkLoop turn mc ov paras (chunks, current, idx)).2.1.length) ∧
      reconstruct ov ((chunkLoop turn mc ov paras (chunks, current, idx)).1.map (·.text) ++
          [(chunkLoop turn mc ov paras (chunks, current, idx)).2.1]) =
        reconstruct ov (chunks.map (·.text) ++ [current]) ++ seplist paras := by
  intro paras
  induction paras with
  | nil =>
    intro chunks current idx hcur hinv
    refine ⟨hcur, hinv, ?_⟩
    simp [chunkLoop, seplist]
  | cons para rest ih =>
    intro chunks current idx hcur hinv
    rw [chunkLoop]
    by_cases hfit : current.length + para.length + 2 ≤ mc
    · rw [if_pos hfit, if_pos hcur]
      have hcur' : current ++ '\n' :: '\n' :: para ≠ [] := by
        intro h
        exact hcur (List.append_eq_nil.mp h).1
      have hinv' : chunks = [] ∨
          (pyLastSlice ((chunks.map (·.text)).getLastD []) ov).length ≤
            (current ++ '\n' :: '\n' :: para).length := by
        rcases hinv with h | h
        · exact Or.inl h
        · refine Or.inr (le_trans h ?_)
          simp
      obtain ⟨h1, h2, h3⟩ := ih chunks (current ++ '\n' :: '\n' :: para) idx hcur' hinv'
      refine ⟨h1, h2, ?_⟩
      rw [h3, recon_extend ov chunks current _ hinv, seplist]
      simp [List.append_assoc]
    · rw [if_neg hfit, if_pos hcur]
      have hcur' : pyLastSlice current ov ++ '\n' :: '\n' :: para ≠ [] := by
        intro h
        exact absurd (List.append_eq_nil.mp h).2 (by simp)
      have hlast : ((chunks ++ [mkChunk turn current idx]).map (·.text)).getLastD [] =
          current := by
        simp [mkChunk]
      have hinv' : chunks ++ [mkChunk turn current idx] = [] ∨
          (pyLastSlice
              (((chunks ++ [mkChunk turn current idx]).map (·.text)).getLastD []) ov).length ≤
            (pyLastSlice current ov ++ '\n' :: '\n' :: para).length := by
        refine Or.inr ?_
        rw [hlast]
        simp
      obtain ⟨h1, h2, h3⟩ := ih (chunks ++ [mkChunk turn current idx])
        (pyLastSlice current ov ++ '\n' :: '\n' :: para) (idx + 1) hcur' hinv'
      refine ⟨h1, h2, ?_⟩
      rw [h3]
      have hm2 : (chunks ++ [mkChunk turn current idx]).map (·.text) =
          chunks.map (·.text) ++ [current] := by
        simp [mkChunk]
      rw [hm2]
      have hne2 : chunks.map (·.text) ++ [current] ≠ [] := by simp
      rw [reconstruct_concat ov _ _ hne2]
      rw [List.getLastD_concat]
      rw [List.drop_left]
      rw [seplist]
      simp [List.append_assoc]

/-- C3 amended. -/
theorem claim_C3_amended (turn : Turn) (max_chars overlap : Nat)
    (hhead : ∀ p, (splitOnSep turn.text).head? = some p → p ≠ []) :
    ∃ rest : Str,
      turn.text =
        reconstruct overlap ((chunk_turn turn max_chars overlap).map (·.text)) ++ rest ∧
      rest.length < 100 := by
  unfold chunk_turn
  by_cases hsmall : turn.text.length ≤ max_chars
  · rw [if_pos hsmall]
    refine ⟨[], ?_, by simp⟩
    simp [mkChunk, reconstruct, reconDrop]
  · rw [if_neg hsmall]
    simp only
    obtain ⟨p, rest', hps⟩ : ∃ p rest', splitOnSep turn.text = p :: rest' := by
      cases h : splitOnSep turn.text with
      | nil => exact absurd h (splitOnSep_ne_nil _)
      | cons p ps => exact ⟨p, ps, rfl⟩
    have hp : p ≠ [] := hhead p (by rw [hps]; rfl)
    have hfirst : chunkLoop turn max_chars overlap (splitOnSep turn.text) ([], [], 0) =
        chunkLoop turn max_chars overlap rest' ([], p, 0) := by
      rw [hps, chunkLoop]
      by_cases hf : ([] : Str).length + p.length + 2 ≤ max_chars
      · rw [if_pos hf, if_neg (by simp : ¬ (([] : Str) ≠ []))]
      · rw [if_neg hf, if_neg (by simp : ¬ (([] : Str) ≠ []))]
    rw [hfirst]
    obtain ⟨h1, h2, h3⟩ :=
      chunkLoop_recon turn max_chars overlap rest' [] p 0 hp (Or.inl rfl)
    have htext : reconstruct overlap
        ((chunkLoop turn max_chars overlap rest' ([], p, 0)).1.map (·.text) ++
          [(chunkLoop turn max_chars overlap rest' ([], p, 0)).2.1]) = turn.text := by
      rw [h3]
      rw [show reconstruct overlap (([] : List Chunk).map (·.text) ++ [p]) = p from by
        simp [reconstruct, reconDrop]]
      rw [← joinSep_cons, ← hps, joinSep_splitOnSep]
    set st := chunkLoop turn max_chars overlap rest' ([], p, 0) with hst
    split
    · refine ⟨[], ?_, by simp⟩
      rw [List.append_nil, ← htext]
      congr 1
      simp [mkChunk]
    · rename_i hcond
      have hlen : st.2.1.length < 100 := by
        rcases not_and_or.mp hcond with h' | h'
        · exact absurd h1 h'
        · omega
      by_cases hc0 : st.1 = []
      · refine ⟨st.2.1, ?_, hlen⟩
        rw [hc0]
        rw [hc0] at htext
        simp only [List.map_nil, List.nil_append] at htext
        rw [show reconstruct overlap [st.2.1] = st.2.1 from by simp [reconstruct, reconDrop]]
          at htext
        rw [show reconstruct overlap (([] : List Chunk).map (·.text)) = [] from by
          simp [reconstruct]]
        rw [← htext]
        simp
      · refine ⟨st.2.1.drop
          (pyLastSlice ((st.1.map (·.text)).getLastD []) overlap).length, ?_, ?_⟩
        · rw [← htext]
          rw [reconstruct_concat _ _ _ (by simpa [List.map_eq_nil_iff] using hc0)]
        · refine lt_of_le_of_lt ?_ hlen
          rw [List.length_drop]
          exact Nat.sub_le _ _

/-- C3 counterexample. -/
theorem claim_C3_counterexample :
    reconstruct 4
        ((chunk_turn (Turn.mk "s".data "ts".data "aaaaaaaa\n\nbb".data [] "f".data)
          10 4).map (fun c => c.text)) ≠
      (Turn.mk "s".data "ts".data "aaaaaaaa\n\nbb".data [] "f".data).text := by
  decide

/-- Witness for the amended C3. -/
theorem claim_C3_amended_witness :
    ∃ rest : Str,
      (Turn.mk "s".data "ts".data "ab\n\ncd".data [] "f".data).text =
        reconstruct 1
          ((chunk_turn (Turn.mk "s".data "ts".data "ab\n\ncd".data [] "f".data)
            3 1).map (·.text)) ++ rest ∧
      rest.length < 100 :=
  claim_C3_amended (Turn.mk "s".data "ts".data "ab\n\ncd".data [] "f".data) 3 1
    (by
      intro p hp
      rw [show splitOnSep (Turn.mk "s".data "ts".data "ab\n\ncd".data [] "f".data).text =
          ["ab".data, "cd".data] from by decide] at hp
      simp at hp
      subst hp
      decide)

/-! ## `parse_transcript` (`src/roundtable/parser.py`)

ASCII models of the Python `str` methods the parser uses.  The transcripts
and all constants in the source are ASCII, so the ASCII fragment of the
Unicode-aware Python behaviour is the relevant one. -/

/-- Python `\s` (ASCII): space, tab, newline, carriage return, vertical
tab, form feed. -/
def isPyWs (c : Char) : Bool :=
  c = ' ' || c = '\t' || c = '\n' || c = '\r' || c = '\x0b' || c = '\x0c'

def isDigitCh (c : Char) : Bool := '0' ≤ c && c ≤ '9'

def isUpperAZ (c : Char) : Bool := 'A' ≤ c && c ≤ 'Z'

def isAlphaCh (c : Char) : Bool := ('A' ≤ c && c ≤ 'Z') || ('a' ≤ c && c ≤ 'z')

/-- The regex character class `[A-Za-z \.&\-\']` for name characters. -/
def isNameChar (c : Char) : Bool :=
  isAlphaCh c || c = ' ' || c = '.' || c = '&' || c = '-' || c = '\''

def lowerChar (c : Char) : Char :=
  if isUpperAZ c then Char.ofNat (c.toNat + 32) else c

def upperChar (c : Char) : Char :=
  if 'a' ≤ c && c ≤ 'z' then Char.ofNat (c.toNat - 32) else c

/-- Python `str.lower()` (ASCII). -/
def pyLower (s : Str) : Str := s.map lowerChar

/-- Python `str.strip()` (ASCII whitespace). -/
def pyStrip (s : Str) : Str :=
  ((s.dropWhile isPyWs).reverse.dropWhile isPyWs).reverse

/-- Python `str.isupper()` (ASCII): at least one cased character and no
lowercase cased character. -/
def pyIsUpper (s : Str) : Bool :=
  s.any isAlphaCh && s.all (fun c => !isAlphaCh c || isUpperAZ c)

def pyTitleGo : Bool → Str → Str
  | _, [] => []
  | prevAlpha, c :: rest =>
    (if isAlphaCh c then (if prevAlpha then lowerChar c else upperChar c) else c) ::
      pyTitleGo (isAlphaCh c) rest

/-- Python `str.title()` (ASCII): uppercase each letter that follows a
non-letter, lowercase every other letter. -/
def pyTitle (s : Str) : Str := pyTitleGo false s

/-- Python `str.split()` with no argument: split on whitespace runs,
discarding empty pieces. -/
def splitWsGo : Str → Str → List Str
  | [], acc => if acc = [] then [] else [acc.reverse]
  | c :: rest, acc =>
    if isPyWs c then
      (if acc = [] then splitWsGo rest [] else acc.reverse :: splitWsGo rest [])
    else splitWsGo rest (c :: acc)

def splitWs (s : Str) : List Str := splitWsGo s []

/-- Python `str.rstrip(chars)`. -/
def rstripChars (s : Str) (chars : List Char) : Str :=
  (s.reverse.dropWhile (fun c => chars.contains c)).reverse

/-- Python `str.split('-')` (keeps empty pieces). -/
def splitHyphenGo : Str → Str → List Str
  | [], acc => [acc.reverse]
  | c :: rest, acc =>
    if c = '-' then acc.reverse :: splitHyphenGo rest []
    else splitHyphenGo rest (c :: acc)

def splitHyphen (s : Str) : List Str := splitHyphenGo s []

/-- Python `s.endswith(suffix)`. -/
def endsWithStr (s suffix : Str) : Bool := List.isSuffixOf suffix s

def strStarts : Str → Str → Bool
  | [], _ => true
  | _ :: _, [] => false
  | p :: ps, c :: cs => p = c && strStarts ps cs

/-- Python `needle in hay` (contiguous substring test). -/
def strContains (needle : Str) : Str → Bool
  | [] => strStarts needle []
  | c :: rest => strStarts needle (c :: rest) || strContains needle rest

/-- `SENTENCE_INDICATORS` from `parser.py`. -/
def SENTENCE_INDICATORS : List Str :=
  ["the".data, "and".data, "that".data, "this".data, "what".data, "which".data,
   "about".data, "with".data, "for".data, "from".data, "into".data, "just".data,
   "yeah".data, "yes".data, "well".data, "okay".data, "really".data, "very".data,
   "good".data, "great".data, "nice".data, "last".data, "next".data, "piece".data,
   "part".data, "idea".data, "point".data, "thing".data, "question".data,
   "answer".data, "so".data, "but".data, "or".data, "if".data, "when".data,
   "how".data, "why".data, "where".data, "who".data, "it".data, "is".data,
   "are".data, "was".data, "were".data, "be".data, "been".data, "being".data,
   "have".data, "has".data, "had".data, "do".data, "does".data, "did".data,
   "will".data, "would".data, "could".data, "should".data, "may".data,
   "might".data, "must".data, "shall".data, "can".data, "not".data, "no".data,
   "all".data, "any".data, "some".data, "every".data, "each".data, "both".data,
   "more".data, "most".data, "other".data, "another".data, "such".data,
   "only".data, "own".data, "same".data, "than".data, "too".data, "also".data,
   "now".data, "then".data, "here".data, "there".data]

/-- `SINGLE_WORD_NON_NAMES` from `parser.py`. -/
def SINGLE_WORD_NON_NAMES : List Str :=
  ["yeah".data, "yes".data, "no".data, "okay".data, "ok".data, "sure".data,
   "right".data, "exactly".data, "absolutely".data, "totally".data,
   "definitely".data, "certainly".data, "probably".data, "maybe".data,
   "perhaps".data, "honestly".data, "actually".data, "basically".data,
   "literally".data, "interesting".data, "amazing".data, "awesome".data,
   "great".data, "good".data, "nice".data, "cool".data, "wow".data, "oh".data,
   "ah".data, "um".data, "uh".data, "hmm".data, "well".data, "so".data,
   "like".data, "true".data, "advertisement".data, "eventually".data,
   "finally".data, "unfortunately".data, "fortunately".data, "obviously".data,
   "clearly".data, "apparently".data, "essentially".data, "ultimately".data,
   "minds".data, "all".data]

/-- `SPONSOR_SPEAKERS` from `parser.py`. -/
def SPONSOR_SPEAKERS : List Str := ["advertisement".data, "ad".data, "sponsor".data]

/-- `SPONSOR_KEYWORDS` from `parser.py`. -/
def SPONSOR_KEYWORDS : List Str :=
  ["brought to you by".data, "this episode is brought".data, "sponsor".data,
   "promo code".data, "discount code".data, "coupon code".data,
   "sign up and get".data, "head over to".data, "check out".data,
   "special offer".data]

/-- `HOST_NAMES` from `parser.py`. -/
def HOST_NAMES : List Str := ["lenny".data, "lenny rachitsky".data]

/-- The recognized honorific endings. -/
def TITLES : List Str :=
  ["Jr.".data, "Sr.".data, "Dr.".data, "Mr.".data, "Ms.".data, "Mrs.".data]

/-- `normalize_speaker_name` from `parser.py`: trim, and convert all-caps
names to title case. -/
def normalize_speaker_name (name : Str) : Str :=
  let name' := pyStrip name
  if pyIsUpper name' then pyTitle name' else name'

/-- `is_valid_speaker_name` from `parser.py`: the chain of heuristics that
rejects sentence-like captures. -/
def is_valid_speaker_name (name : Str) : Bool :=
  let name_clean := pyStrip name
  let name_lower := pyLower name_clean
  if name_clean = [] then false
  else
    let words := splitWs name_lower
    if 5 < words.length then false
    else if name_clean.length < 3 then false
    else if words.length = 1 &&
        ((splitHyphen (rstripChars (words.headD []) ['.'])).any
          (fun part => SINGLE_WORD_NON_NAMES.contains part)) then false
    else if words.length = 1 && endsWithStr name_clean ['.'] &&
        !(TITLES.any (fun t => endsWithStr name_clean t)) then false
    else if words.any (fun w =>
        SENTENCE_INDICATORS.contains (rstripChars w ['.', ',', '!', '?'])) then false
    else if 1 < words.length && endsWithStr name_clean ['.'] &&
        !(TITLES.any (fun t => endsWithStr name_clean t)) then false
    else true

/-- `is_host` from `parser.py`. -/
def is_host (speaker : Str) : Bool := HOST_NAMES.contains (pyStrip (pyLower speaker))

/-- `is_sponsor_content` from `parser.py`. -/
def is_sponsor_content (text : Str) : Bool :=
  SPONSOR_KEYWORDS.any (fun kw => strContains kw (pyLower text))

/-! Hand-compiled backtracking matchers for the three marker regexes of
`parser.py` (Python `re` semantics: leftmost match, greedy quantifiers with
backtracking, `re.MULTILINE` anchors). -/

/-- One regex match: span, captured name (group 1, empty for
timestamp-only matches) and captured timestamp (empty when absent). -/
structure RawMatch where
  start : Nat
  stop : Nat
  name : Str
  ts : Str
deriving DecidableEq, Repr

/-- Literal `):`. -/
def matchParen : Str → Option Str
  | ')' :: ':' :: r => some r
  | _ => none

/-- `(?::\d{2})?\):` with backtracking: try the optional seconds group
greedily, fall back to skipping it. -/
def matchOptSec (s : Str) : Option (Str × Str) :=
  match s with
  | ':' :: c :: d :: rest =>
    if isDigitCh c && isDigitCh d then
      match matchParen rest with
      | some r => some ([':', c, d], r)
      | none => (matchParen s).map (fun r => ([], r))
    else (matchParen s).map (fun r => ([], r))
  | _ => (matchParen s).map (fun r => ([], r))

/-- `:\d{2}(?::\d{2})?\):`. -/
def matchMinSec (s : Str) : Option (Str × Str) :=
  match s with
  | ':' :: a :: b :: rest =>
    if isDigitCh a && isDigitCh b then
      (matchOptSec rest).map (fun x => (':' :: a :: b :: x.1, x.2))
    else none
  | _ => none

/-- `\d{1,2}:\d{2}(?::\d{2})?\):` with the greedy 2-then-1 digit
backtracking; returns the captured clock (group 2) and the rest after
`):`. -/
def matchClockParen (s : Str) : Option (Str × Str) :=
  match s with
  | a :: b :: rest =>
    if isDigitCh a then
      if isDigitCh b then
        match matchMinSec rest with
        | some x => some (a :: b :: x.1, x.2)
        | none => (matchMinSec (b :: rest)).map (fun x => (a :: x.1, x.2))
      else (matchMinSec (b :: rest)).map (fun x => (a :: x.1, x.2))
    else none
  | _ => none

/-- `\s*$` under `re.MULTILINE`: the greedy whitespace run followed by an
end-of-line assertion.  Returns how many characters the match consumes:
all of them when the run reaches end of input, otherwise up to the last
newline inside the run (`$` matches just before a `'\n'`). -/
def matchTrail (s : Str) : Option Nat :=
  let run := s.takeWhile isPyWs
  if run.length = s.length then some run.length
  else
    match run.reverse.findIdx? (fun c => c = '\n') with
    | some j => some (run.length - 1 - j)
    | none => none

/-- Backtracking over the greedy `{1,49}` name-extension length for
`SPEAKER_WITH_TIMESTAMP_PATTERN`, from longest to shortest.  `\s*` before
`(` is deterministic: `(` is not whitespace, so only the end of the
maximal whitespace run can match it. -/
def nameLoopTs (i : Nat) (c : Char) (s1 : Str) : Nat → Option RawMatch
  | 0 => none
  | j + 1 =>
    let rest := s1.drop (j + 1)
    let afterWs := rest.dropWhile isPyWs
    match afterWs with
    | '(' :: r3 =>
      (match matchClockParen r3 with
       | some x =>
         match matchTrail x.2 with
         | some k =>
           some { start := i, stop := i + (1 + s1.length) - (x.2.length - k),
                  name := c :: s1.take (j + 1), ts := x.1 }
         | none => nameLoopTs i c s1 j
       | none => nameLoopTs i c s1 j)
    | _ => nameLoopTs i c s1 j

/-- `SPEAKER_WITH_TIMESTAMP_PATTERN` tried at position `i`. -/
def matchTsAt (text : Str) (i : Nat) : Option RawMatch :=
  match text.drop i with
  | [] => none
  | c :: s1 =>
    if isUpperAZ c then nameLoopTs i c s1 (min 49 (s1.takeWhile isNameChar).length)
    else none

def nameLoopNoTs (i : Nat) (c : Char) (s1 : Str) : Nat → Option RawMatch
  | 0 => none
  | j + 1 =>
    (match s1.drop (j + 1) with
     | ':' :: r2 =>
       match matchTrail r2 with
       | some k =>
         some { start := i, stop := i + (1 + s1.length) - (r2.length - k),
                name := c :: s1.take (j + 1), ts := [] }
       | none => nameLoopNoTs i c s1 j
     | _ => nameLoopNoTs i c s1 j)

/-- `SPEAKER_NO_TIMESTAMP_PATTERN` tried at position `i`. -/
def matchNoTsAt (text : Str) (i : Nat) : Option RawMatch :=
  match text.drop i with
  | [] => none
  | c :: s1 =>
    if isUpperAZ c then nameLoopNoTs i c s1 (min 49 (s1.takeWhile isNameChar).length)
    else none

/-- `TIMESTAMP_ONLY_PATTERN` tried at position `i`. -/
def matchTsOnlyAt (text : Str) (i : Nat) : Option RawMatch :=
  match text.drop i with
  | '(' :: s1 =>
    (match matchClockParen s1 with
     | some x =>
       match matchTrail x.2 with
       | some k =>
         some { start := i, stop := i + (1 + s1.length) - (x.2.length - k),
                name := [], ts := x.1 }
       | none => none
     | none => none)
  | _ => none

/-- The `^` anchor under `re.MULTILINE`: start of input or just after a
newline. -/
def anchoredAt (text : Str) (i : Nat) : Bool :=
  i = 0 || text.get? (i - 1) = some '\n'

/-- `re.finditer`: scan left to right, yield non-overlapping matches,
resuming after each match. -/
def scanAux (matchAt : Str → Nat → Option RawMatch) (text : Str) :
    Nat → Nat → List RawMatch
  | 0, _ => []
  | fuel + 1, i =>
    if text.length < i then []
    else
      match (if anchoredAt text i then matchAt text i else none) with
      | some m => m :: scanAux matchAt text fuel (max m.stop (i + 1))
      | none => scanAux matchAt text fuel (i + 1)

def finditerP (matchAt : Str → Nat → Option RawMatch) (text : Str) : List RawMatch :=
  scanAux matchAt text (text.length + 1) 0

/-! Marker construction and the segmentation fold of `parse_transcript`. -/

inductive MKind
  | speaker
  | cont
deriving DecidableEq, Repr

/-- A marker in the sorted marker stream: a speaker label or a
continuation. -/
structure Marker where
  start : Nat
  stop : Nat
  kind : MKind
  name : Str
  ts : Str
deriving DecidableEq, Repr

/-- A speaker-pattern match becomes a speaker marker when the captured name
passes the validity heuristics (name normalized), and degrades to a
continuation marker (keeping its timestamp) otherwise. -/
def toMarker (m : RawMatch) : Marker :=
  if is_valid_speaker_name m.name then
    { start := m.start, stop := m.stop, kind := MKind.speaker,
      name := normalize_speaker_name m.name, ts := m.ts }
  else
    { start := m.start, stop := m.stop, kind := MKind.cont, name := [], ts := m.ts }

/-- A timestamp-only match is always a continuation marker. -/
def tsOnlyMarker (m : RawMatch) : Marker :=
  { start := m.start, stop := m.stop, kind := MKind.cont, name := [], ts := m.ts }

/-- `all_markers.sort(key=lambda x: x['start'])` — a stable sort by start
offset. -/
def sortMarkers (l : List Marker) : List Marker :=
  List.insertionSort (fun a b => a.start ≤ b.start) l

/-- Python `text[a:b]`. -/
def sliceStr (text : Str) (a b : Nat) : Str := (text.take b).drop a

/-- One raw turn record prior to merging. -/
structure RawTurn where
  speaker : Str
  timestamp : Str
  text : Str
  is_host : Bool
deriving DecidableEq, Repr

/-- The speaker-filling left-to-right pass over the sorted markers: a
speaker marker updates the carried current speaker, a continuation marker
inherits it (defaulting to `"Lenny"`); each marker's body runs from its end
to the next marker's start (stripped). -/
def rawTurnsGo (text : Str) : Option Str → List Marker → List RawTurn
  | _, [] => []
  | cur, m :: rest =>
    let sp := match m.kind with
      | MKind.speaker => m.name
      | MKind.cont => cur.getD ("Lenny".data)
    let nextStart := match rest with
      | [] => text.length
      | m2 :: _ => m2.start
    { speaker := sp, timestamp := m.ts, text := pyStrip (sliceStr text m.stop nextStart),
        is_host := is_host sp } ::
      rawTurnsGo text (match m.kind with | MKind.speaker => some m.name | MKind.cont => cur)
        rest

/-- Merge consecutive raw turns by the same speaker (bodies joined with a
blank line), as in `parser.py`. -/
def mergeGo : RawTurn → List RawTurn → List RawTurn
  | cur, [] => [cur]
  | cur, t :: rest =>
    if cur.speaker = t.speaker then
      mergeGo { cur with text := cur.text ++ '\n' :: '\n' :: t.text } rest
    else cur :: mergeGo t rest

def mergeTurns : List RawTurn → List RawTurn
  | [] => []
  | t :: rest => mergeGo t rest

/-- The guard `speaker_name and speaker_name.lower() in SPONSOR_SPEAKERS`. -/
def sponsorSpeakerB (sp : Str) : Bool :=
  sp ≠ [] && SPONSOR_SPEAKERS.contains (pyLower sp)

/-- The guest-extraction fold: host turns update `last_host_question`
(unless they are sponsor content); guest turns survive when they are not
sponsor-labeled, not sponsor content, and at least 100 characters long. -/
def extractGo (src : Str) : Str → List RawTurn → List Turn
  | _, [] => []
  | lastQ, t :: rest =>
    if t.is_host then
      if is_sponsor_content t.text then extractGo src lastQ rest
      else extractGo src t.text rest
    else
      if sponsorSpeakerB t.speaker then extractGo src lastQ rest
      else if is_sponsor_content t.text then extractGo src lastQ rest
      else if 100 ≤ t.text.length then
        { speaker := t.speaker, timestamp := t.timestamp, text := t.text,
          preceding_question := lastQ, source_file := src } :: extractGo src lastQ rest
      else extractGo src lastQ rest

/-- Speaker-pattern matches for the timestamped dialect. -/
def tsMatches (text : Str) : List RawMatch := finditerP matchTsAt text

/-- The speaker matches actually used: fall back to the untimestamped
dialect when the timestamped one has no matches. -/
def effMatches (text : Str) : List RawMatch :=
  if tsMatches text = [] then finditerP matchNoTsAt text else tsMatches text

/-- Timestamp-only continuations, used only in the timestamped dialect. -/
def effTsOnly (text : Str) : List RawMatch :=
  if tsMatches text = [] then [] else finditerP matchTsOnlyAt text

/-- The combined, sorted marker stream. -/
def allMarkers (text : Str) : List Marker :=
  sortMarkers ((effMatches text).map toMarker ++ (effTsOnly text).map tsOnlyMarker)

/-- `parse_transcript` from `parser.py` (the file read externalized: the
function takes the decoded text and the source-file name). -/
def parse_transcript (text source_file : Str) : List Turn :=
  if effMatches text = [] then []
  else extractGo source_file [] (mergeTurns (rawTurnsGo text none (allMarkers text)))

/-! ## Claim C9 — name normalization and example scenario 1 -/

set_option maxRecDepth 8000 in
/-- C9: `normalize_speaker_name` title-cases all-uppercase names and passes
mixed-case names through apart from trimming; and on a transcript whose
line `KUNAL SHAH (00:00:08):` is followed by a 150-character body,
`parse_transcript` emits exactly one guest turn with speaker
`"Kunal Shah"` and timestamp `"00:00:08"`. -/
theorem claim_C9_name_normalization :
    (∀ name : Str,
      normalize_speaker_name name =
        if pyIsUpper (pyStrip name) then pyTitle (pyStrip name) else pyStrip name) ∧
    parse_transcript ("KUNAL SHAH (00:00:08):\n".data ++ List.replicate 150 'x')
        ("f".data) =
      [Turn.mk ("Kunal Shah".data) ("00:00:08".data) (List.replicate 150 'x') []
        ("f".data)] := by
  constructor
  · intro name; rfl
  · decide

/-! ## Claim C6 — invariants of the parser output -/

/-- The body of the most recent host turn that is not sponsor content in
`pre`, defaulting to `lastQ` when there is none. -/
def lastHostQFrom (lastQ : Str) (pre : List RawTurn) : Str :=
  ((pre.filter (fun r => r.is_host && !is_sponsor_content r.text)).map (·.text)).getLastD
    lastQ

theorem extractGo_spec (src : Str) :
    ∀ (l : List RawTurn) (lastQ : Str) (t : Turn),
      t ∈ extractGo src lastQ l →
      100 ≤ t.text.length ∧
      sponsorSpeakerB t.speaker = false ∧
      is_sponsor_content t.text = false ∧
      t.source_file = src ∧
      ∃ pre g suf, l = pre ++ g :: suf ∧ g.is_host = false ∧ t.speaker = g.speaker ∧
        t.timestamp = g.timestamp ∧ t.text = g.text ∧
        t.preceding_question = lastHostQFrom lastQ pre := by
  intro l
  induction l with
  | nil => intro lastQ t h; exact absurd h (List.not_mem_nil _)
  | cons t0 rest ih =>
    intro lastQ t h
    rw [extractGo] at h
    by_cases hh : t0.is_host
    · rw [if_pos hh] at h
      by_cases hs : is_sponsor_content t0.text
      · rw [if_pos hs] at h
        obtain ⟨h1, h2, h3, h4, pre, g, suf, hl, hg1, hg2, hg3, hg4, hg5⟩ := ih lastQ t h
        refine ⟨h1, h2, h3, h4, t0 :: pre, g, suf, by rw [hl, List.cons_append],
          hg1, hg2, hg3, hg4, ?_⟩
        rw [hg5]
        unfold lastHostQFrom
        rw [List.filter_cons]
        simp [hh, hs]
      · rw [if_neg hs] at h
        obtain ⟨h1, h2, h3, h4, pre, g, suf, hl, hg1, hg2, hg3, hg4, hg5⟩ := ih t0.text t h
        refine ⟨h1, h2, h3, h4, t0 :: pre, g, suf, by rw [hl, List.cons_append],
          hg1, hg2, hg3, hg4, ?_⟩
        rw [hg5]
        unfold lastHostQFrom
        rw [List.filter_cons]
        simp only [hh, hs, Bool.not_false, Bool.and_true, if_pos]
        rw [List.map_cons, List.getLastD_cons]
    · rw [if_neg hh] at h
      have hflag : t0.is_host = false := by
        exact Bool.not_eq_true _ ▸ (by simpa using hh)
      by_cases hsp : sponsorSpeakerB t0.speaker
      · rw [if_pos hsp] at h
        obtain ⟨h1, h2, h3, h4, pre, g, suf, hl, hg1, hg2, hg3, hg4, hg5⟩ := ih lastQ t h
        refine ⟨h1, h2, h3, h4, t0 :: pre, g, suf, by rw [hl, List.cons_append],
          hg1, hg2, hg3, hg4, ?_⟩
        rw [hg5]
        unfold lastHostQFrom
        rw [List.filter_cons]
        simp [hflag]
      · rw [if_neg hsp] at h
        by_cases hsc : is_sponsor_content t0.text
        · rw [if_pos hsc] at h
          obtain ⟨h1, h2, h3, h4, pre, g, suf, hl, hg1, hg2, hg3, hg4, hg5⟩ := ih lastQ t h
          refine ⟨h1, h2, h3, h4, t0 :: pre, g, suf, by rw [hl, List.cons_append],
            hg1, hg2, hg3, hg4, ?_⟩
          rw [hg5]
          unfold lastHostQFrom
          rw [List.filter_cons]
          simp [hflag]
        · rw [if_neg hsc] at h
          by_cases hlen : 100 ≤ t0.text.length
          · rw [if_pos hlen] at h
            rcases List.mem_cons.mp h with heq | hrec
            · subst heq
              refine ⟨hlen, ?_, ?_, rfl, [], t0, rest, rfl, hflag, rfl, rfl, rfl, rfl⟩
              · simpa using hsp
              · simpa using hsc
            · obtain ⟨h1, h2, h3, h4, pre, g, suf, hl, hg1, hg2, hg3, hg4, hg5⟩ :=
                ih lastQ t hrec
              refine ⟨h1, h2, h3, h4, t0 :: pre, g, suf, by rw [hl, List.cons_append],
                hg1, hg2, hg3, hg4, ?_⟩
              rw [hg5]
              unfold lastHostQFrom
              rw [List.filter_cons]
              simp [hflag]
          · rw [if_neg hlen] at h
            obtain ⟨h1, h2, h3, h4, pre, g, suf, hl, hg1, hg2, hg3, hg4, hg5⟩ := ih lastQ t h
            refine ⟨h1, h2, h3, h4, t0 :: pre, g, suf, by rw [hl, List.cons_append],
              hg1, hg2, hg3, hg4, ?_⟩
            rw [hg5]
            unfold lastHostQFrom
            rw [List.filter_cons]
            simp [hflag]

theorem rawTurnsGo_flag (text : Str) :
    ∀ (markers : List Marker) (cur : Option Str),
      ∀ r ∈ rawTurnsGo text cur markers, r.is_host = is_host r.speaker := by
  intro markers
  induction markers with
  | nil => intro cur r h; exact absurd h (List.not_mem_nil _)
  | cons m rest ih =>
    intro cur r h
    simp only [rawTurnsGo] at h
    rcases List.mem_cons.mp h with heq | h'
    · subst heq; rfl
    · exact ih _ r h'

theorem mergeGo_flag :
    ∀ (rest : List RawTurn) (cur : RawTurn),
      cur.is_host = is_host cur.speaker →
      (∀ r ∈ rest, r.is_host = is_host r.speaker) →
      ∀ r ∈ mergeGo cur rest, r.is_host = is_host r.speaker := by
  intro rest
  induction rest with
  | nil =>
    intro cur hc _ r h
    rw [mergeGo] at h
    rw [List.mem_singleton.mp h]
    exact hc
  | cons t rest' ih =>
    intro cur hc hr r h
    rw [mergeGo] at h
    by_cases hsp : cur.speaker = t.speaker
    · rw [if_pos hsp] at h
      exact ih { cur with text := cur.text ++ '\n' :: '\n' :: t.text } hc
        (fun r' hr' => hr r' (List.mem_cons_of_mem _ hr')) r h
    · rw [if_neg hsp] at h
      rcases List.mem_cons.mp h with heq | h'
      · rw [heq]; exact hc
      · exact ih t (hr t (List.mem_cons_self _ _))
          (fun r' hr' => hr r' (List.mem_cons_of_mem _ hr')) r h'

theorem mergeTurns_flag (l : List RawTurn)
    (hl : ∀ r ∈ l, r.is_host = is_host r.speaker) :
    ∀ r ∈ mergeTurns l, r.is_host = is_host r.speaker := by
  cases l with
  | nil => intro r h; exact absurd h (List.not_mem_nil _)
  | cons t rest =>
    exact mergeGo_flag rest t (hl t (List.mem_cons_self _ _))
      (fun r h => hl r (List.mem_cons_of_mem _ h))

/-- C6: every turn returned by `parse_transcript` has a body of at least
100 characters, a non-host and non-sponsor speaker, a body free of sponsor
keywords, and a `preceding_question` equal to the body of the most recent
preceding non-sponsor host turn in the merged turn stream (empty when none
exists). -/
theorem claim_C6_output_invariants (text src : Str) (t : Turn)
    (h : t ∈ parse_transcript text src) :
    100 ≤ t.text.length ∧
    is_host t.speaker = false ∧
    SPONSOR_SPEAKERS.contains (pyLower t.speaker) = false ∧
    is_sponsor_content t.text = false ∧
    ∃ pre g suf,
      mergeTurns (rawTurnsGo text none (allMarkers text)) = pre ++ g :: suf ∧
      t.speaker = g.speaker ∧ t.text = g.text ∧
      t.preceding_question =
        ((pre.filter (fun r => r.is_host && !is_sponsor_content r.text)).map
          (·.text)).getLastD [] := by
  unfold parse_transcript at h
  by_cases hz : effMatches text = []
  · rw [if_pos hz] at h
    exact absurd h (List.not_mem_nil _)
  · rw [if_neg hz] at h
    obtain ⟨h1, h2, h3, _, pre, g, suf, hl, hg1, hg2, hg3, hg4, hg5⟩ :=
      extractGo_spec src _ [] t h
    have hinv : ∀ r ∈ mergeTurns (rawTurnsGo text none (allMarkers text)),
        r.is_host = is_host r.speaker :=
      mergeTurns_flag _ (rawTurnsGo_flag text (allMarkers text) none)
    have hgmem : g ∈ mergeTurns (rawTurnsGo text none (allMarkers text)) := by
      rw [hl]
      exact List.mem_append.mpr (Or.inr (List.mem_cons_self _ _))
    refine ⟨h1, ?_, ?_, h3, pre, g, suf, hl, hg2, hg4, hg5⟩
    · rw [hg2, ← (hinv g hgmem), hg1]
    · by_cases hsp0 : t.speaker = []
      · rw [hsp0]
        decide
      · unfold sponsorSpeakerB at h2
        simpa [hsp0] using h2

set_option maxRecDepth 8000 in
/-- Witness for C6 on a concrete transcript with a host question, a guest
turn and a timestamp continuation. -/
theorem claim_C6_output_invariants_witness :
    100 ≤ (Turn.mk ("Kunal Shah".data) ("00:00:08".data)
        (List.replicate 120 'x' ++ '\n' :: '\n' :: List.replicate 5 'y')
        ("What framework?".data) ("f".data)).text.length ∧
    is_host (Turn.mk ("Kunal Shah".data) ("00:00:08".data)
        (List.replicate 120 'x' ++ '\n' :: '\n' :: List.replicate 5 'y')
        ("What framework?".data) ("f".data)).speaker = false ∧
    SPONSOR_SPEAKERS.contains (pyLower (Turn.mk ("Kunal Shah".data) ("00:00:08".data)
        (List.replicate 120 'x' ++ '\n' :: '\n' :: List.replicate 5 'y')
        ("What framework?".data) ("f".data)).speaker) = false ∧
    is_sponsor_content (Turn.mk ("Kunal Shah".data) ("00:00:08".data)
        (List.replicate 120 'x' ++ '\n' :: '\n' :: List.replicate 5 'y')
        ("What framework?".data) ("f".data)).text = false ∧
    ∃ pre g suf,
      mergeTurns (rawTurnsGo
          ("Lenny Rachitsky (00:00:01):\nWhat framework?\n\nKUNAL SHAH (00:00:08):\n".data ++
            List.replicate 120 'x' ++ "\n\n(00:01:00):\n".data ++ List.replicate 5 'y')
          none
          (allMarkers
            ("Lenny Rachitsky (00:00:01):\nWhat framework?\n\nKUNAL SHAH (00:00:08):\n".data ++
              List.replicate 120 'x' ++ "\n\n(00:01:00):\n".data ++ List.replicate 5 'y'))) =
        pre ++ g :: suf ∧
      (Turn.mk ("Kunal Shah".data) ("00:00:08".data)
        (List.replicate 120 'x' ++ '\n' :: '\n' :: List.replicate 5 'y')
        ("What framework?".data) ("f".data)).speaker = g.speaker ∧
      (Turn.mk ("Kunal Shah".data) ("00:00:08".data)
        (List.replicate 120 'x' ++ '\n' :: '\n' :: List.replicate 5 'y')
        ("What framework?".data) ("f".data)).text = g.text ∧
      (Turn.mk ("Kunal Shah".data) ("00:00:08".data)
        (List.replicate 120 'x' ++ '\n' :: '\n' :: List.replicate 5 'y')
        ("What framework?".data) ("f".data)).preceding_question =
        ((pre.filter (fun r => r.is_host && !is_sponsor_content r.text)).map
          (·.text)).getLastD [] :=
  claim_C6_output_invariants
    ("Lenny Rachitsky (00:00:01):\nWhat framework?\n\nKUNAL SHAH (00:00:08):\n".data ++
      List.replicate 120 'x' ++ "\n\n(00:01:00):\n".data ++ List.replicate 5 'y')
    ("f".data)
    (Turn.mk ("Kunal Shah".data) ("00:00:08".data)
      (List.replicate 120 'x' ++ '\n' :: '\n' :: List.replicate 5 'y')
      ("What framework?".data) ("f".data))
    (by decide)
